import Mathlib

/-!
# Verification of the tunnel server against its specification

This file gives a shallow embedding, in Lean 4, of the parts of the Go
tunnel server that the specification talks about:

* the name validator `tunnelNameValid` (utils);
* the HTTP processor (`GetContentLength`, `replaceHeader`,
  `SetHostHeader`, `GetHost`, start-line classification);
* the forward handler's HTTP-name and TCP-port acquisition logic;
* the chunked transfer reader (`chunkedReader.Read`).

Go byte strings are modelled as `List Nat` (each element a byte value);
Go `string` values that only ever hold header names/values are modelled
as `List Nat` as well.  Machine integers (`int64`, `uint64`) are modelled
as `Int`/`Nat`; the only spot where the width matters
(`2<<62 - 1` in `GetContentLength`) is written out explicitly.
Fallible operations return `Option`.
-/

namespace Tunnel

/-! ## Byte-string utilities (bytes / strings packages) -/

/-- Byte value of the dash character. -/
def dashByte : Nat := 45

/-- Byte value of the newline character. -/
def nlByte : Nat := 10

/-- Byte value of the carriage-return character. -/
def crByte : Nat := 13

/-- Byte value of the colon character. -/
def colonByte : Nat := 58

/-- Convert a Lean string to the list of bytes of its UTF-8 encoding,
assuming all characters are ASCII (the only usage in this file). -/
def strBytes (s : String) : List Nat := s.toList.map Char.toNat

/-- `occursAt pat l i` means the byte pattern `pat` occurs in `l`
starting at index `i`. -/
def occursAt (pat l : List Nat) (i : Nat) : Prop :=
  i + pat.length ≤ l.length ∧ (l.drop i).take pat.length = pat

instance (pat l : List Nat) (i : Nat) : Decidable (occursAt pat l i) := by
  unfold occursAt; infer_instance

/-- `bytes.Index` / `strings.Index`: index of the first occurrence of
`pat` in `l`, or `none`.  (Go returns `-1` for "not found"; we use
`Option`.)  An empty pattern occurs at index 0, as in Go. -/
def listIndexOf (l pat : List Nat) : Option Nat :=
  go l 0
where
  go : List Nat → Nat → Option Nat
    | [], i => if pat = [] ∧ l.length = i then some i else none
    | _ :: xs, i =>
      if occursAt pat l i then some i else go xs (i + 1)

/-- `strings.Contains` on byte strings. -/
def listContains (l pat : List Nat) : Bool :=
  (listIndexOf l pat).isSome

/-- ASCII lower-casing of a single byte, the behaviour of
`strings.ToLower` on ASCII input (all inputs considered in this
development are ASCII; `strings.ToLower` on non-ASCII runes is not
modelled). -/
def goToLowerByte (b : Nat) : Nat :=
  if 65 ≤ b ∧ b ≤ 90 then b + 32 else b

/-- `strings.ToLower` on an ASCII byte string. -/
def goToLower (s : List Nat) : List Nat := s.map goToLowerByte

/-! ## `tunnelNameValid` (utils, `tunnelNameValid` / `subDomainValid`) -/

/-- One byte of a tunnel name is acceptable when it is a lowercase
letter, a digit or a dash: the character test inside the validation
loop. -/
def tunnelNameByteOk (b : Nat) : Bool :=
  (97 ≤ b && b ≤ 122) || (48 ≤ b && b ≤ 57) || b = dashByte

/-- The validation loop of `tunnelNameValid`: every byte must be a
lowercase letter, digit or dash, and a dash must not be followed by
another dash. -/
def tunnelNameScan : List Nat → Bool
  | [] => true
  | [b] => tunnelNameByteOk b
  | b :: b' :: rest =>
    tunnelNameByteOk b && !(b = dashByte && b' = dashByte) &&
      tunnelNameScan (b' :: rest)

/-- `tunnelNameValid` from the source: length below 50 and nonempty;
after ASCII lower-casing, must not start or end with a dash and must
pass the validation loop. -/
def tunnelNameValid (s : List Nat) : Bool :=
  if ¬ (s.length < 50) then false
  else if s = [] then false
  else
    let t := goToLower s
    if t.head? = some dashByte ∨ t.getLast? = some dashByte then false
    else tunnelNameScan t

/-- `noDoubleDash l` holds when no two consecutive bytes of `l` are both
dashes.  Specification-side notion used to compare against the scan. -/
def noDoubleDash : List Nat → Bool
  | [] => true
  | [_] => true
  | b :: b' :: rest => !(b = dashByte && b' = dashByte) && noDoubleDash (b' :: rest)

/-- Modelled from the spec: the regular expression
`^[a-z0-9](?!.*--)[a-z0-9-]*[a-z0-9]$` together with `len < 50`.  The
regex requires at least two characters (a first `[a-z0-9]`, then
optional middle characters, then a final `[a-z0-9]`), all lowercase
letters, digits or dashes, not starting or ending with a dash, and no
two consecutive dashes anywhere. -/
def specRegexNameValid (s : List Nat) : Bool :=
  decide (s.length < 50) && decide (2 ≤ s.length) &&
    s.all tunnelNameByteOk &&
    !(s.head? = some dashByte) && !(s.getLast? = some dashByte) &&
    noDoubleDash s

lemma tunnelNameScan_eq (l : List Nat) :
    tunnelNameScan l = (l.all tunnelNameByteOk && noDoubleDash l) := by
  induction l with
  | nil => rfl
  | cons b rest ih =>
    cases rest with
    | nil => simp [tunnelNameScan, noDoubleDash]
    | cons b' rest' =>
      simp only [tunnelNameScan, noDoubleDash, ih, List.all_cons]
      by_cases hb : tunnelNameByteOk b = true <;>
        by_cases hd : (b = dashByte && b' = dashByte) = true <;>
          simp [hb, hd]

/-- The amended characterisation of `tunnelNameValid`: length below 50
and, after ASCII lower-casing, a nonempty word over lowercase letters,
digits and dashes that does not start or end with a dash and has no two
consecutive dashes.  (Differs from the spec's regex: one-character names
are accepted, and the check runs on the lower-cased input.) -/
def amendedNameValid (s : List Nat) : Bool :=
  decide (s.length < 50) && !(s = []) &&
    (goToLower s).all tunnelNameByteOk &&
    !((goToLower s).head? = some dashByte) &&
    !((goToLower s).getLast? = some dashByte) &&
    noDoubleDash (goToLower s)

/-! ## The HTTP processor state

`httpProcessor` from the source, after start-line and header parsing.
`buf` is the parse buffer contents (only the written prefix is
modelled), `input` the bytes still to come from the underlying reader,
`urlHostQuery` the value of `URL.Query().Get("host")` when the parsed
`URL` is non-nil (`none` models `URL == nil`).  `lastError` records
whether an error has been stored in the `lastError` field. -/

/-- Which reader `adjustBodyReader` installed as `headerBodyReader`:
the processor itself (upgrade), a limited reader over the buffered
prefix concatenated with a chunked reader, or a limited reader. -/
inductive ReaderKind where
  | passthrough
  | prefixChunked
  | limited
  deriving DecidableEq, Repr

/-- The parsed headers: a map from canonical header name to the ordered
list of values, modelled as an association list with unique keys. -/
abbrev Headers := List (List Nat × List (List Nat))

/-- Lookup in the headers map (`h.headers[name]`). -/
def lookupHeader (hs : Headers) (k : List Nat) : Option (List (List Nat)) :=
  (hs.find? (fun e => decide (e.1 = k))).map (·.2)

/-- Assignment `h.headers[name] = v` for a key already present in the
map (the only way the source mutates the map). -/
def setHeader (hs : Headers) (k : List Nat) (v : List (List Nat)) : Headers :=
  hs.map (fun e => if e.1 = k then (e.1, v) else e)

structure HttpProcessor where
  buf : List Nat
  input : List Nat
  bufReadPos : Int
  bufWritePos : Int
  totalBytes : Int
  bufferBytesRead : Int
  bufferUsed : Bool
  parsedHeaders : Bool
  lastError : Bool
  request : Bool
  requestMethod : List Nat
  requestRawURI : List Nat
  headers : Headers
  urlHostQuery : Option (List Nat)
  responseStatusCode : Int
  bodyStartsIndex : Int
  bodyLength : Int
  readerKind : ReaderKind
  deriving DecidableEq, Repr

/-- `IsRequestChunked`: the first `Transfer-Encoding` value equals
`"chunked"`. -/
def IsRequestChunked (h : HttpProcessor) : Bool :=
  match lookupHeader h.headers (strBytes "Transfer-Encoding") with
  | some (v :: _) => v = strBytes "chunked"
  | _ => false

/-! ## `strconv.ParseInt` (base 10, 64-bit) -/

/-- Value of a decimal digit byte, if it is one. -/
def decDigit (b : Nat) : Option Nat :=
  if 48 ≤ b ∧ b ≤ 57 then some (b - 48) else none

/-- Accumulate the value of a nonempty all-digit byte string. -/
def decDigitsVal (l : List Nat) : Option Nat :=
  if l = [] then none else go l 0
where
  go : List Nat → Nat → Option Nat
    | [], acc => some acc
    | b :: t, acc =>
      match decDigit b with
      | none => none
      | some d => go t (acc * 10 + d)

/-- `strconv.ParseInt(s, 10, 64)` (also `strconv.Atoi` on a 64-bit
platform): optional sign, a nonempty run of decimal digits, and the
result must fit in a signed 64-bit integer. -/
def goParseInt64 (s : List Nat) : Option Int :=
  match s with
  | 43 :: rest =>
    (decDigitsVal rest).bind fun n =>
      if n ≤ 2 ^ 63 - 1 then some (n : Int) else none
  | 45 :: rest =>
    (decDigitsVal rest).bind fun n =>
      if n ≤ 2 ^ 63 then some (-(n : Int)) else none
  | _ =>
    (decDigitsVal s).bind fun n =>
      if n ≤ 2 ^ 63 - 1 then some (n : Int) else none

/-! ## Start-line parsing (`parseRequestLine`, `parseResponseLine`,
`validMethod` and the classification block of `httpProcessor.Read`) -/

/-- `cut(s, " ")` / `strings.Cut(s, " ")`: the part before the first
space, the part after it, and whether a space was found. -/
def cutSpace : List Nat → List Nat × List Nat × Bool
  | [] => ([], [], false)
  | b :: rest =>
    if b = 32 then ([], rest, true)
    else
      let r := cutSpace rest
      (b :: r.1, r.2.1, r.2.2)

/-- `parseRequestLine`: split on the first two spaces; all three parts
must be delimited. -/
def parseRequestLine (line : List Nat) : Option (List Nat × List Nat × List Nat) :=
  if (cutSpace line).2.2 && (cutSpace (cutSpace line).2.1).2.2 then
    some ((cutSpace line).1, (cutSpace (cutSpace line).2.1).1,
      (cutSpace (cutSpace line).2.1).2.1)
  else none

/-- Membership in `httpguts`'s token table: HTTP token characters per
RFC 7230 (for byte values; non-ASCII bytes are not token bytes, as in
the Go table of length 127). -/
def isTokenByte (b : Nat) : Bool :=
  (48 ≤ b && b ≤ 57) || (65 ≤ b && b ≤ 90) || (97 ≤ b && b ≤ 122) ||
    b = 33 || b = 35 || b = 36 || b = 37 || b = 38 || b = 39 || b = 42 ||
    b = 43 || b = 45 || b = 46 || b = 94 || b = 95 || b = 96 || b = 124 ||
    b = 126

/-- A decimal digit byte. -/
def isDigitByte (b : Nat) : Bool := 48 ≤ b && b ≤ 57

/-- `validMethod`: nonempty and made only of token characters. -/
def validMethod (m : List Nat) : Bool :=
  !(m = []) && m.all isTokenByte

/-- `parseResponseLine`: `PROTO SP STATUS`, where the first
space-separated token of `STATUS` must have exactly three characters
and parse through `strconv.Atoi` to a nonnegative value. -/
def parseResponseLine (line : List Nat) : Option (List Nat × List Nat × Int) :=
  if (cutSpace line).2.2 = false then none
  else if ¬ ((cutSpace (cutSpace line).2.1).1.length = 3) then none
  else
    match goParseInt64 (cutSpace (cutSpace line).2.1).1 with
    | none => none
    | some code =>
      if code < 0 then none
      else some ((cutSpace line).1, (cutSpace line).2.1, code)

/-- The result of the start-line classification block of
`httpProcessor.Read` (lines 173–192 of the processor source): the
`request` flag and the fields recorded for a request or a response.
`α` is the type of parsed URLs and `parseRequestURI` stands for
`url.ParseRequestURI` (an external library function, kept abstract). -/
structure StartLine (α : Type) where
  request : Bool
  requestMethod : List Nat
  requestRawURI : List Nat
  url : Option α
  responseStatusCode : Int
  deriving Repr

/-- The classification block of `httpProcessor.Read`: try the line as a
request line with a valid method (recording method, raw URI and, when
it parses, the URL); otherwise try it as a response line, recording the
status code on success. -/
def classifyStartLine {α : Type} (parseRequestURI : List Nat → Option α)
    (line : List Nat) : StartLine α :=
  let base : StartLine α := ⟨false, [], [], none, 0⟩
  let afterReq :=
    match parseRequestLine line with
    | some (m, uri, _) =>
      if validMethod m then
        { base with
          request := true, requestMethod := m, requestRawURI := uri,
          url := parseRequestURI uri }
      else base
    | none => base
  if afterReq.request = false then
    match parseResponseLine line with
    | some (_, _, code) => { afterReq with responseStatusCode := code }
    | none => afterReq
  else afterReq

/-! ## `GetContentLength` -/

/-- `httpProcessor.GetContentLength`: `(0, true)` when chunked;
otherwise, when a `Content-Length` value is present, parse it
(`(0, false)` on parse failure) and apply the RFC 9110 special cases
for responses; otherwise derive a length from the buffered body
(`2<<62 - 1 - bufferBytesRead` sentinel for a response with buffered
body). -/
def GetContentLength (h : HttpProcessor) : Int × Bool :=
  if IsRequestChunked h then (0, true)
  else
    match lookupHeader h.headers (strBytes "Content-Length") with
    | some (v :: _) =>
      match goParseInt64 v with
      | none => (0, false)
      | some l =>
        if h.responseStatusCode = 204 ∨ h.responseStatusCode = 304 ∨
            (100 ≤ h.responseStatusCode ∧ h.responseStatusCode < 200) then
          (0, true)
        else if h.request = false ∧ h.requestMethod = strBytes "CONNECT" ∧
            (200 ≤ h.responseStatusCode ∧ h.responseStatusCode < 300) then
          (0, true)
        else if h.request = false ∧ h.requestMethod = strBytes "HEAD" then
          (0, true)
        else (l, true)
    | _ =>
      if h.request then (h.bufferBytesRead - h.bodyStartsIndex, true)
      else if h.bufferBytesRead - h.bodyStartsIndex > 0 then
        (2 ^ 63 - 1 - h.bufferBytesRead, true)
      else (0, true)

/-! ## Header replacement and the body reader

The operations below model a processor state in which the start-line
and headers have already been parsed (`ReadHeadersIfNeeded` is a no-op
on such a state: either the buffer is drained, or `Read` with an empty
output returns after the `len(p) == 0` check without changing
anything). -/

/-- The `Connection: upgrade` test at the top of `adjustBodyReader`.
(In Go, a `Connection` header present with an empty value list would
panic on `v[0]`; such a state is not produced by the MIME parser and is
modelled as no upgrade.) -/
def connectionUpgrade (h : HttpProcessor) : Bool :=
  match lookupHeader h.headers (strBytes "Connection") with
  | some (v :: _) => decide (goToLower v = strBytes "upgrade")
  | _ => false

/-- `adjustBodyReader`: pick the `headerBodyReader` and precompute
`bodyLength`. -/
def adjustBodyReader (h : HttpProcessor) : HttpProcessor :=
  if connectionUpgrade h then { h with readerKind := .passthrough }
  else if IsRequestChunked h then { h with readerKind := .prefixChunked }
  else { h with bodyLength := (GetContentLength h).1, readerKind := .limited }

/-- `adjustBufferPositions`: shift the write cursor, the body start
index and the buffered byte count by the length difference of a
rewrite, then rebuild the body reader. -/
def adjustBufferPositions (h : HttpProcessor) (offset : Int) : HttpProcessor :=
  adjustBodyReader
    { h with
      bufWritePos := h.bufWritePos + offset,
      bodyStartsIndex := h.bodyStartsIndex + offset,
      bufferBytesRead := h.bufferBytesRead + offset }

/-- `bytes.Replace(l, old, new, 1)`: replace the first occurrence of
`old` (an empty `old` is inserted at the front, as in Go). -/
def listReplace1 (l old new : List Nat) : List Nat :=
  match listIndexOf l old with
  | none => l
  | some i => l.take i ++ new ++ l.drop (i + old.length)

/-- The search loop of `replaceHeader`: find an occurrence of
`headerName` in the buffer that is preceded by `'\n'` and followed by
`':'`.  `fuel` bounds the iterations (the source loop advances `c` by
at least `len(headerName)` per round; `buf.length + 1` is enough fuel
for a nonempty name).  In Go, an occurrence at the very start or the
very end of the buffer would panic on the guard indexing; those
positions are treated as mismatches here and are unreachable for a
parsed header block. -/
def findHeaderNameIndex (buf name : List Nat) : Nat → Nat → Option Nat
  | 0, _ => none
  | fuel + 1, c =>
    if buf.length ≤ c then none
    else
      match listIndexOf (buf.drop c) name with
      | none => none
      | some start =>
        if ¬ (buf.get? (c + start + name.length) = some colonByte) then
          findHeaderNameIndex buf name fuel (c + start + name.length)
        else if ¬ (0 < c + start ∧ buf.get? (c + start - 1) = some nlByte) then
          findHeaderNameIndex buf name fuel (c + start + name.length)
        else some (c + start)

/-- A header line without its final newline: `name ++ ": " ++ value ++
"\r"`.  This is the slice `temp` that `replaceHeader` cuts out of a
well-formed buffer. -/
def headerLine (name value : List Nat) : List Nat :=
  name ++ (58 :: 32 :: (value ++ [13]))

/-- The tail of the buffer rewrite of `replaceHeader`, once the header
name has been located at `start`: cut the line at the next `'\n'`,
replace the first occurrence of the old value inside the line, splice
the fixed line back over the first occurrence of the old line, and
shift the cursors by the length difference. -/
def replaceHeaderCutLine (h' : HttpProcessor)
    (oldValue headerValue : List Nat) (start : Nat) : HttpProcessor :=
  match listIndexOf (h'.buf.drop start) [nlByte] with
  | none => h'
  | some e =>
    adjustBufferPositions
      { h' with
        buf := listReplace1 h'.buf ((h'.buf.drop start).take e)
          (listReplace1 ((h'.buf.drop start).take e) oldValue headerValue) }
      ((headerValue.length : Int) - (oldValue.length : Int))

/-- The buffer-rewriting part of `replaceHeader` (run on the state
whose map is already updated, with the previous single value
`oldValue`): locate the header line in the buffer (the name preceded by
`'\n'` and followed by `':'`) and rewrite it. -/
def replaceHeaderBuf (h' : HttpProcessor)
    (headerName oldValue headerValue : List Nat) : HttpProcessor :=
  match findHeaderNameIndex h'.buf headerName (h'.buf.length + 1) 0 with
  | none => h'
  | some start => replaceHeaderCutLine h' oldValue headerValue start

/-- `httpProcessor.replaceHeader`: if the header is present with a
single value, overwrite it in the map; then, while the buffer has not
been drained, rewrite the buffer through `replaceHeaderBuf`. -/
def replaceHeader (h : HttpProcessor) (headerName headerValue : List Nat) :
    HttpProcessor :=
  match lookupHeader h.headers headerName with
  | some [oldValue] =>
    if h.bufferUsed then
      { h with headers := setHeader h.headers headerName [headerValue] }
    else
      replaceHeaderBuf
        { h with headers := setHeader h.headers headerName [headerValue] }
        headerName oldValue headerValue
  | _ => h

/-- `domainURL[:domainEndIndex]`: the part of the configured domain URL
before the first `/` (the whole of it when there is no `/`). -/
def domainPrefix (domainURL : List Nat) : List Nat :=
  domainURL.take
    (match listIndexOf domainURL [47] with
     | none => domainURL.length
     | some i => i)

/-- `httpProcessor.SetHostHeader`: overwrite `Host`; when the single
`Origin` value contains (case-insensitively) the part of the configured
`domainURL` before the first `/`, set `Origin` to the result of
replacing the first case-sensitive occurrence of that domain prefix by
the new header value. -/
def SetHostHeader (domainURL : List Nat) (h : HttpProcessor)
    (header : List Nat) : HttpProcessor :=
  match lookupHeader (replaceHeader h (strBytes "Host") header).headers
      (strBytes "Origin") with
  | some [oldOrigin] =>
    if listContains (goToLower oldOrigin) (goToLower (domainPrefix domainURL)) then
      replaceHeader (replaceHeader h (strBytes "Host") header)
        (strBytes "Origin")
        (listReplace1 oldOrigin (domainPrefix domainURL) header)
    else replaceHeader h (strBytes "Host") header
  | _ => replaceHeader h (strBytes "Host") header

/-- The `Host` fallback of `GetHost`: the single `Host` header value. -/
def hostFromHeaders (h : HttpProcessor) : Option (List Nat) :=
  match lookupHeader h.headers (strBytes "Host") with
  | some [v] => some v
  | _ => none

/-- `httpProcessor.GetHost`: the `?host=` query parameter of the parsed
URL when nonempty, else the single `Host` header, else an error
(`none`). -/
def GetHost (h : HttpProcessor) : Option (List Nat) :=
  match h.urlHostQuery with
  | some q => if q = [] then hostFromHeaders h else some q
  | none => hostFromHeaders h

/-- `httpProcessor.Read` on a state whose headers are already parsed:
while the buffer is not drained, copy from the buffer window and mark
it drained when the window empties; afterwards read the underlying
source directly (end of input sets the sticky error, as the underlying
`Read` returns `io.EOF`). -/
def procRead (h : HttpProcessor) (k : Nat) : List Nat × HttpProcessor :=
  if h.lastError then ([], h)
  else if h.bufferUsed = false then
    if k = 0 then ([], h)
    else
      let window :=
        (h.buf.drop h.bufReadPos.toNat).take (h.bufWritePos - h.bufReadPos).toNat
      let out := window.take k
      let newPos := h.bufReadPos + out.length
      (out, { h with
        bufReadPos := newPos,
        bufferUsed := decide (newPos = h.bufWritePos) })
  else
    match h.input with
    | [] => ([], { h with lastError := true })
    | _ =>
      let out := h.input.take k
      (out, { h with
        input := h.input.drop k,
        totalBytes := h.totalBytes + out.length })

/-- `io.LimitReader(h, n).Read` with remaining allowance `n`: cap the
request at `n`, read through the processor, and decrease the
allowance. -/
def limitedRead (n : Int) (h : HttpProcessor) (k : Nat) :
    List Nat × Int × HttpProcessor :=
  if n ≤ 0 then ([], n, h)
  else
    let k' := min (k : Int) n
    let r := procRead h k'.toNat
    (r.1, n - r.1.length, r.2)

/-- Repeatedly read through a limit reader with the given request
sizes, concatenating the produced bytes. -/
def limitedReadRun (n : Int) (h : HttpProcessor) : List Nat → List Nat
  | [] => []
  | k :: ks =>
    let r := limitedRead n h k
    r.1 ++ limitedReadRun r.2.1 r.2.2 ks

/-! ## Concrete processor states used in witnesses and counterexamples -/

/-- A parsed response carrying `Content-Length: 12` with status 200 to
a `GET` request, used as witness state. -/
def responseWithCL12 : HttpProcessor where
  buf := []
  input := []
  bufReadPos := 0
  bufWritePos := 0
  totalBytes := 0
  bufferBytesRead := 0
  bufferUsed := false
  parsedHeaders := true
  lastError := false
  request := false
  requestMethod := strBytes "GET"
  requestRawURI := []
  headers := [(strBytes "Content-Length", [strBytes "12"])]
  urlHostQuery := none
  responseStatusCode := 200
  bodyStartsIndex := 0
  bodyLength := 0
  readerKind := .limited

/-- A parsed response carrying the unparseable `Content-Length: abc`,
used for the C3 counterexample. -/
def responseWithBadCL : HttpProcessor :=
  { responseWithCL12 with headers := [(strBytes "Content-Length", [strBytes "abc"])] }

/-- A drained processor state used as witness for C8 and C10. -/
def drainedProc : HttpProcessor where
  buf := strBytes "GET / HTTP/1.1\r\nHost: domain.io\r\n\r\n"
  input := strBytes "more body bytes"
  bufReadPos := 36
  bufWritePos := 36
  totalBytes := 36
  bufferBytesRead := 36
  bufferUsed := true
  parsedHeaders := true
  lastError := false
  request := true
  requestMethod := strBytes "GET"
  requestRawURI := strBytes "/"
  headers := [(strBytes "Host", [strBytes "domain.io"])]
  urlHostQuery := none
  responseStatusCode := 0
  bodyStartsIndex := 36
  bodyLength := 0
  readerKind := .limited


/-- An undrained parsed request state whose `Origin` value contains the
configured domain only with different letter case. -/
def procC7 : HttpProcessor where
  buf := strBytes
    "GET / HTTP/1.1\r\nHost: domain.io\r\nOrigin: http://DOMAIN.io\r\n\r\n"
  input := []
  bufReadPos := 0
  bufWritePos := 61
  totalBytes := 61
  bufferBytesRead := 61
  bufferUsed := false
  parsedHeaders := true
  lastError := false
  request := true
  requestMethod := strBytes "GET"
  requestRawURI := strBytes "/"
  headers := [(strBytes "Host", [strBytes "domain.io"]),
    (strBytes "Origin", [strBytes "http://DOMAIN.io"])]
  urlHostQuery := none
  responseStatusCode := 0
  bodyStartsIndex := 61
  bodyLength := 0
  readerKind := .limited

/-- The same state with a lower-case `Origin` value (the domain occurs
case-sensitively). -/
def procC7W : HttpProcessor :=
  { procC7 with
    buf := strBytes
      "GET / HTTP/1.1\r\nHost: domain.io\r\nOrigin: http://domain.io\r\n\r\n",
    headers := [(strBytes "Host", [strBytes "domain.io"]),
      (strBytes "Origin", [strBytes "http://domain.io"])] }

/-! ## The forward handler's registries

`sshTunnelListeners` maps `bind-addr:port ++ name` to a descriptor; the
acquisition logic only consults the descriptor's `clientID`, which is
the only field modelled.  `forwards` (TCP listeners) is consulted by
the port scan only through key membership for one fixed bind address,
modelled as a `taken` predicate on port numbers (the key
`JoinHostPort(bindAddr, itoa(p))` determines `p` uniquely). -/

/-- An entry of `sshTunnelListeners` (only the `clientID` field is read
by the acquisition logic). -/
structure TunnelEntry where
  clientID : List Nat
  deriving DecidableEq, Repr

/-- The `sshTunnelListeners` map, as an association list with unique
keys. -/
abbrev TunnelTable := List (List Nat × TunnelEntry)

/-- Map lookup `sshTunnelListeners[key]`. -/
def tableLookup (t : TunnelTable) (k : List Nat) : Option TunnelEntry :=
  (t.find? (fun e => decide (e.1 = k))).map (·.2)

/-- Map assignment `sshTunnelListeners[key] = v` (overwrite or add). -/
def tableInsert : TunnelTable → List Nat → TunnelEntry → TunnelTable
  | [], k, v => [(k, v)]
  | e :: rest, k, v =>
    if e.1 = k then (k, v) :: rest else e :: tableInsert rest k v

/-- `charMap` from utils: `0..9` map to digit bytes, `10..35` to
lowercase letter bytes. -/
def charMapByte (i : Nat) : Nat :=
  if i ≤ 9 then 48 + i else 87 + i

/-- `generateRandomTunnelName`, applied to one draw of random bytes:
each byte taken mod 36 and mapped through `charMap`. -/
def generateRandomTunnelName (bs : List Nat) : List Nat :=
  bs.map (fun b => charMapByte (b % 36))

/-- The generation loop of the forward handler: keep drawing random
names until one is absent from the table.  The entropy source is
modelled as the list of 4-byte draws `randoms`; `none` models
exhausting the modelled entropy (the program would keep looping). -/
def genLoop (table : TunnelTable) (addr : List Nat) :
    List (List Nat) → Option (List Nat)
  | [] => none
  | bs :: rest =>
    let g := generateRandomTunnelName bs
    if (tableLookup table (addr ++ g)).isSome then genLoop table addr rest
    else some g

/-- The HTTP-name acquisition of `forwardHandler` (part_007 lines
104–161), reduced to its effect on the registry: decide whether the
requested name is usable (valid and either free or owned by the same
client); otherwise generate names until a free one is found; then
insert the granted name and answer it. -/
def acquireHttpName (table : TunnelTable) (addr tunnelName clientID : List Nat)
    (randoms : List (List Nat)) : Option (List Nat × TunnelTable) :=
  let valid := tunnelNameValid tunnelName
  let takenOrInvalid :=
    if valid then
      match tableLookup table (addr ++ tunnelName) with
      | some e => decide (¬ e.clientID = clientID)
      | none => false
    else true
  if takenOrInvalid then
    match genLoop table addr randoms with
    | none => none
    | some g => some (g, tableInsert table (addr ++ g) ⟨clientID⟩)
  else some (tunnelName, tableInsert table (addr ++ tunnelName) ⟨clientID⟩)

/-- The TCP port scan of `forwardHandler` (part_007 lines 233–243):
`for p := 1000; p <= 1<<16; p++`, stopping at the first port whose
forwards key is absent.  `count` is the number of candidates left. -/
def scanPorts (taken : Nat → Bool) : Nat → Nat → Option Nat
  | 0, _ => none
  | count + 1, p =>
    if taken p = false then some p else scanPorts taken count (p + 1)

/-- The whole scan: candidates `1000..=65536` (`1<<16` inclusive). -/
def allocateTcpPort (taken : Nat → Bool) : Option Nat :=
  scanPorts taken 64537 1000

/- ### The chunked transfer-coding pass-through reader (part_010)

`NewChunkedReader` wraps a `bufio.Reader`; the model takes the wrapped
source to be fully buffered, so the reader state carries the list of
bytes not yet consumed from the source (`input`).  The per-call fields
`outputSlice`, `outputTotalBytesWritten` and `outputBytesFromBody` of the
Go struct are threaded through the loop explicitly (as the remaining
output capacity `capLeft`, the accumulated written bytes `acc`, and
`bodyCnt`). -/

/-- The errors a `chunkedReader` can record in `cp.err`: `io.EOF`,
`io.ErrUnexpectedEOF`, "malformed chunked encoding", `ErrLineTooLong`,
"invalid byte in chunk length" and "http chunk length too large". -/
inductive ChunkErr where
  | eof
  | unexpectedEOF
  | malformed
  | lineTooLong
  | invalidByte
  | lengthTooLarge
  deriving DecidableEq, Repr

instance (e f : Except ChunkErr Nat) : Decidable (e = f) :=
  match e, f with
  | .ok m, .ok n =>
    if h : m = n then .isTrue (by rw [h]) else .isFalse (by simp [h])
  | .ok _, .error _ => .isFalse (by simp)
  | .error _, .ok _ => .isFalse (by simp)
  | .error a, .error b =>
    if h : a = b then .isTrue (by rw [h]) else .isFalse (by simp [h])

/-- The persistent state of a `chunkedReader` (part_010 lines 24–38). -/
structure ChunkedReader where
  input : List Nat
  unreadBytesInChunk : Nat
  err : Option ChunkErr
  buf : List Nat
  checkEnd : Bool
  line : List Nat
  unwrittenBytesInBuffer : Nat
  deriving DecidableEq, Repr

/-- `bufio.Reader.ReadSlice('\n')` over the fully buffered input: the
line up to and including the first newline together with the rest, or
`none` when the source runs out before a newline (`io.EOF`). -/
def breakAtNewline : List Nat → Option (List Nat × List Nat)
  | [] => none
  | b :: t =>
    if b = nlByte then some ([b], t)
    else
      match breakAtNewline t with
      | none => none
      | some (l, r) => some (b :: l, r)

/-- `isASCIISpace` (part_010 line 235): space, tab, newline or return. -/
def isASCIISpace (b : Nat) : Bool :=
  b = 32 || b = 9 || b = 10 || b = 13

/-- `trimTrailingWhitespace` (part_010 lines 228–233): drop the maximal
run of ASCII whitespace from the end. -/
def trimTrailingWhitespace (b : List Nat) : List Nat :=
  (b.reverse.dropWhile isASCIISpace).reverse

/-- `removeChunkExtension` (part_010 lines 248–254): `bytes.Cut(p, ";")`,
keeping what precedes the first semicolon (it never returns an error). -/
def removeChunkExtension : List Nat → List Nat
  | [] => []
  | b :: t => if b = 59 then [] else b :: removeChunkExtension t

/-- One hex digit of `parseHexUint` (part_010 lines 258–267). -/
def hexDigitVal (b : Nat) : Option Nat :=
  if 48 ≤ b ∧ b ≤ 57 then some (b - 48)
  else if 97 ≤ b ∧ b ≤ 102 then some (b - 97 + 10)
  else if 65 ≤ b ∧ b ≤ 70 then some (b - 65 + 10)
  else none

/-- The loop of `parseHexUint` (part_010 lines 256–275) with the index
`i` and accumulator `n` explicit; a non-hex byte fails before the
17-digit check, and `n <<= 4; n |= b` is `16 * n + d` (the results stay
below `2 ^ 64`, so plain `Nat` arithmetic is exact). -/
def parseHexUintGo : List Nat → Nat → Nat → Except ChunkErr Nat
  | [], _, n => .ok n
  | b :: t, i, n =>
    match hexDigitVal b with
    | none => .error .invalidByte
    | some d =>
      if i = 16 then .error .lengthTooLarge
      else parseHexUintGo t (i + 1) (16 * n + d)

/-- `parseHexUint` (part_010 line 256). -/
def parseHexUint (v : List Nat) : Except ChunkErr Nat :=
  parseHexUintGo v 0 0

/-- `readChunkLine` (part_010 lines 172–196): `cp.line` and
`cp.unwrittenBytesInBuffer` are set before any error is looked at; a
missing newline is `io.ErrUnexpectedEOF`, a found line of
`maxLineLength` (4096) bytes or more is `ErrLineTooLong`; otherwise the
trimmed, extension-free size digits are returned. -/
def readChunkLine (st : ChunkedReader) :
    ChunkedReader × Except ChunkErr (List Nat) :=
  match breakAtNewline st.input with
  | none =>
    ({ st with line := st.input,
               unwrittenBytesInBuffer := st.input.length,
               input := [] },
      .error .unexpectedEOF)
  | some (l, rest) =>
    if 4096 ≤ l.length then
      ({ st with line := l, unwrittenBytesInBuffer := l.length,
                 input := rest },
        .error .lineTooLong)
    else
      ({ st with line := l, unwrittenBytesInBuffer := l.length,
                 input := rest },
        .ok (removeChunkExtension (trimTrailingWhitespace l)))

/-- `beginChunk` (part_010 lines 40–52). -/
def beginChunk (st : ChunkedReader) : ChunkedReader :=
  match readChunkLine st with
  | (st', .error e) => { st' with err := some e }
  | (st', .ok p) =>
    match parseHexUint p with
    | .error e => { st' with err := some e }
    | .ok n => { st' with unreadBytesInChunk := n }

/-- `chunkHeaderAvailable` (part_010 lines 54–61): with everything
buffered, asks whether any unread byte is a newline. -/
def chunkHeaderAvailable (st : ChunkedReader) : Bool :=
  decide (0 < st.input.length) && decide (nlByte ∈ st.input)

/-- `io.ReadFull(cp.r, cp.buf[:2])` (part_010 line 77): `true` when two
bytes were available; otherwise the partial read is recorded and the
caller maps the error to `io.ErrUnexpectedEOF`. -/
def readFooter2 (st : ChunkedReader) : ChunkedReader × Bool :=
  match st.input with
  | b1 :: b2 :: rest =>
    ({ st with buf := [b1, b2], unwrittenBytesInBuffer := 2,
               input := rest }, true)
  | _ =>
    ({ st with buf := st.input ++ st.buf.drop st.input.length,
               unwrittenBytesInBuffer := st.input.length,
               input := [] }, false)

/-- `flushFooter` (part_010 lines 199–214): write up to `capLeft` bytes
of the unwritten tail of `buf`; gives the bytes written, the new state
and the capacity left.  `checkEnd` is cleared once the footer is fully
written. -/
def flushFooter (st : ChunkedReader) (capLeft : Nat) :
    List Nat × ChunkedReader × Nat :=
  ((st.buf.drop (st.buf.length - st.unwrittenBytesInBuffer)).take
      (min capLeft st.unwrittenBytesInBuffer),
    { st with
        unwrittenBytesInBuffer :=
          st.unwrittenBytesInBuffer - min capLeft st.unwrittenBytesInBuffer,
        checkEnd :=
          if st.unwrittenBytesInBuffer - min capLeft st.unwrittenBytesInBuffer
              = 0 then false
          else st.checkEnd },
    capLeft - min capLeft st.unwrittenBytesInBuffer)

/-- `flushLine` (part_010 lines 217–226): the same for the pending tail
of `line`; `checkEnd` is untouched. -/
def flushLine (st : ChunkedReader) (capLeft : Nat) :
    List Nat × ChunkedReader × Nat :=
  ((st.line.drop (st.line.length - st.unwrittenBytesInBuffer)).take
      (min capLeft st.unwrittenBytesInBuffer),
    { st with
        unwrittenBytesInBuffer :=
          st.unwrittenBytesInBuffer - min capLeft st.unwrittenBytesInBuffer },
    capLeft - min capLeft st.unwrittenBytesInBuffer)

/-- Outcome of a section of the body of the `Read` loop: bytes written,
new state, capacity left, new `outputBytesFromBody`; `brk` is `break`,
`cont` ends the iteration (either `continue` or falling off the end of
the loop body), `fall` falls through to the next section. -/
inductive StepRes where
  | brk (out : List Nat) (st : ChunkedReader) (capLeft bodyCnt : Nat)
  | cont (out : List Nat) (st : ChunkedReader) (capLeft bodyCnt : Nat)
  | fall (out : List Nat) (st : ChunkedReader) (capLeft bodyCnt : Nat)
  deriving Repr

/-- Prepend earlier output of the same iteration. -/
def StepRes.addOut (o : List Nat) : StepRes → StepRes
  | .brk o' st c b => .brk (o ++ o') st c b
  | .cont o' st c b => .cont (o ++ o') st c b
  | .fall o' st c b => .fall (o ++ o') st c b

/-- Part_010 lines 89–101: once the footer is buffered, write it out and
check for the end of the message (last size line exactly `"0\r\n"`). -/
def stepAfterFooter (st : ChunkedReader) (capLeft bodyCnt : Nat) : StepRes :=
  if capLeft = 0 then .brk [] st capLeft bodyCnt
  else
    match flushFooter st capLeft with
    | (o, st', capLeft') =>
      if st'.unreadBytesInChunk = 0 ∧ st'.unwrittenBytesInBuffer = 0 ∧
          st'.line = [48, 13, 10] then
        .cont o { st' with err := some .eof } capLeft' bodyCnt
      else .fall o st' capLeft' bodyCnt

/-- The `if cp.checkEnd` section (part_010 lines 68–102). -/
def stepCheckEnd (st : ChunkedReader) (capLeft bodyCnt : Nat) : StepRes :=
  if st.checkEnd = false then .fall [] st capLeft bodyCnt
  else if 0 < bodyCnt ∧ st.input.length < 2 ∧
      st.unwrittenBytesInBuffer = 0 then
    .brk [] st capLeft bodyCnt
  else if st.unwrittenBytesInBuffer = 0 then
    match readFooter2 st with
    | (st', true) =>
      if st'.buf = [13, 10] then stepAfterFooter st' capLeft bodyCnt
      else .brk [] { st' with err := some .malformed } capLeft bodyCnt
    | (st', false) =>
      .brk [] { st' with err := some .unexpectedEOF } capLeft bodyCnt
  else stepAfterFooter st capLeft bodyCnt

/-- The "write pending line" section (part_010 lines 105–131). -/
def stepFlushLine (st : ChunkedReader) (capLeft bodyCnt : Nat) : StepRes :=
  if st.unwrittenBytesInBuffer = 0 then .fall [] st capLeft bodyCnt
  else if capLeft = 0 then .brk [] st capLeft bodyCnt
  else
    match flushLine st capLeft with
    | (o, st', capLeft') =>
      if st'.unwrittenBytesInBuffer ≠ 0 then .brk o st' capLeft' bodyCnt
      else if st'.unreadBytesInChunk = 0 then
        if st'.line = [48, 13, 10] then
          .cont o { st' with checkEnd := true } capLeft' bodyCnt
        else .cont o { st' with err := some .eof } capLeft' bodyCnt
      else .fall o st' capLeft' bodyCnt

/-- The chunk-header / body-read section (part_010 lines 132–163).
`cp.r.Read` of a fully buffered source delivers
`min(len(tmpSlice), available)` bytes, or `(0, io.EOF)` when empty. -/
def stepBody (st : ChunkedReader) (capLeft bodyCnt : Nat) : StepRes :=
  if st.unreadBytesInChunk = 0 then
    if 0 < bodyCnt ∧ chunkHeaderAvailable st = false then
      .brk [] st capLeft bodyCnt
    else .cont [] (beginChunk st) capLeft bodyCnt
  else if capLeft = 0 then .brk [] st capLeft bodyCnt
  else if st.input.length = 0 then
    .cont [] { st with err := some .unexpectedEOF } capLeft bodyCnt
  else
    .cont (st.input.take (min (min capLeft st.unreadBytesInChunk)
        st.input.length))
      { st with
          input := st.input.drop (min (min capLeft st.unreadBytesInChunk)
            st.input.length),
          unreadBytesInChunk := st.unreadBytesInChunk -
            min (min capLeft st.unreadBytesInChunk) st.input.length,
          checkEnd :=
            if st.unreadBytesInChunk -
                min (min capLeft st.unreadBytesInChunk) st.input.length
                = 0 then true
            else st.checkEnd }
      (capLeft - min (min capLeft st.unreadBytesInChunk) st.input.length)
      (bodyCnt + min (min capLeft st.unreadBytesInChunk) st.input.length)

/-- One pass over the body of the `Read` loop (part_010 lines 67–164):
the three sections in order, with fall-through. -/
def chunkStep (st : ChunkedReader) (capLeft bodyCnt : Nat) : StepRes :=
  match stepCheckEnd st capLeft bodyCnt with
  | .fall o1 st1 c1 b1 =>
    (match stepFlushLine st1 c1 b1 with
     | .fall o2 st2 c2 b2 => (StepRes.addOut o2 (stepBody st2 c2 b2))
     | r => r).addOut o1
  | r => r

/-- The `for cp.err == nil` loop of `Read` (part_010 line 67); `fuel`
bounds the number of iterations (every continuing iteration either
consumes input or capacity or records an error, so the fuel passed by
`chunkedRead` below never runs out). -/
def readLoop : Nat → ChunkedReader → Nat → List Nat → Nat →
    List Nat × ChunkedReader
  | 0, st, _, acc, _ => (acc, st)
  | fuel + 1, st, capLeft, acc, bodyCnt =>
    if st.err.isSome then (acc, st)
    else
      match chunkStep st capLeft bodyCnt with
      | .brk o st' _ _ => (acc ++ o, st')
      | .cont o st' capLeft' bodyCnt' =>
        readLoop fuel st' capLeft' (acc ++ o) bodyCnt'
      | .fall o st' capLeft' bodyCnt' =>
        readLoop fuel st' capLeft' (acc ++ o) bodyCnt'

/-- One call `cp.Read(output)` with `len(output) = cap`: the bytes
written and the state afterwards (Go returns
`(cp.outputTotalBytesWritten, cp.err)`; here the written bytes are the
list itself and the error sits in the state). -/
def chunkedRead (st : ChunkedReader) (cap : Nat) :
    List Nat × ChunkedReader :=
  readLoop (st.input.length + cap + 8) st cap [] 0

/-- The reader `NewChunkedReader` returns, before anything is read. -/
def initChunkedReader (input : List Nat) : ChunkedReader :=
  { input := input, unreadBytesInChunk := 0, err := none, buf := [0, 0],
    checkEnd := false, line := [], unwrittenBytesInBuffer := 0 }

/-- The state after a whole valid encoding has been passed through: the
terminator's footer sits in `buf`, the last size line was `"0\r\n"`,
`io.EOF` is recorded, and `extra` was never touched. -/
def finalChunkState (extra : List Nat) : ChunkedReader :=
  { input := extra, unreadBytesInChunk := 0, err := some .eof,
    buf := [13, 10], checkEnd := false, line := [48, 13, 10],
    unwrittenBytesInBuffer := 0 }

/-- One chunk of a chunked encoding: size digits, optional extension
(raw, between the digits and the CRLF), and body. -/
structure Chunk where
  hex : List Nat
  ext : List Nat
  body : List Nat

/-- A well-formed chunk: nonempty hex size digits that parse to the
(positive) body length, an extension free of newlines that the reader's
whitespace-trim and extension-strip reduce away (trivially so when it is
empty), and a size line short enough for `maxLineLength`. -/
def chunkOk (c : Chunk) : Prop :=
  c.hex ≠ [] ∧
  parseHexUint c.hex = .ok c.body.length ∧
  0 < c.body.length ∧
  (∀ b ∈ c.ext, ¬ b = nlByte) ∧
  removeChunkExtension
      (trimTrailingWhitespace ((c.hex ++ c.ext) ++ [13, 10])) = c.hex ∧
  c.hex.length + c.ext.length + 2 < 4096

/-- The byte stream of a sequence of chunks followed by the terminating
zero-length chunk `"0\r\n\r\n"`: each chunk is
`SIZE[ext] CRLF body CRLF`. -/
def encodeChunks : List Chunk → List Nat
  | [] => [48, 13, 10, 13, 10]
  | c :: cs =>
    ((c.hex ++ c.ext) ++ [13, 10]) ++ (c.body ++ ([13, 10] ++ encodeChunks cs))

/-- A valid HTTP/1.1 chunked encoding ending with the terminating
zero-length chunk. -/
def ValidChunked (P : List Nat) : Prop :=
  ∃ cs : List Chunk, (∀ c ∈ cs, chunkOk c) ∧ P = encodeChunks cs

/-- The reader state right after `beginChunk` has consumed the size line
of the first remaining chunk (or of the terminator). -/
def afterBeginChunkState : List Chunk → List Nat → List Nat → ChunkedReader
  | [], extra, b₀ =>
    { input := 13 :: 10 :: extra, unreadBytesInChunk := 0, err := none,
      buf := b₀, checkEnd := false, line := [48, 13, 10],
      unwrittenBytesInBuffer := 3 }
  | c :: cs, extra, b₀ =>
    { input := c.body ++ (13 :: 10 :: (encodeChunks cs ++ extra)),
      unreadBytesInChunk := c.body.length, err := none, buf := b₀,
      checkEnd := false, line := (c.hex ++ c.ext) ++ [13, 10],
      unwrittenBytesInBuffer := c.hex.length + c.ext.length + 2 }

end Tunnel

namespace Tunnel

/-- **C4, counterexample.**  The single-character name "a" is accepted
by `tunnelNameValid` but is rejected by the spec's regex
`^[a-z0-9](?!.*--)[a-z0-9-]*[a-z0-9]$` (which requires at least two
characters), so the claimed equivalence fails at `"a"`. -/
theorem tunnelNameValid_spec_counterexample :
    tunnelNameValid (strBytes "a") = true ∧
      specRegexNameValid (strBytes "a") = false := by
  constructor <;> rfl

/-- **C4 (amended).**  `tunnelNameValid s` is `true` iff `s` has length
below 50 and its ASCII lower-casing is a nonempty word over
`[a-z0-9-]` that does not start or end with `-` and contains no two
consecutive dashes. -/
theorem tunnelNameValid_iff (s : List Nat) :
    tunnelNameValid s = amendedNameValid s := by
  unfold tunnelNameValid amendedNameValid
  by_cases hlen : s.length < 50
  · by_cases hnil : s = []
    · subst hnil; simp [goToLower]
    · have hmap : ¬ goToLower s = [] := by
        simpa [goToLower] using hnil
      by_cases hhead : (goToLower s).head? = some dashByte
      · simp [hlen, hnil, hhead]
      · by_cases hlast : (goToLower s).getLast? = some dashByte
        · simp [hlen, hnil, hhead, hlast]
        · simp [hlen, hnil, hhead, hlast, tunnelNameScan_eq]
  · simp [hlen]

/-! ### `GetContentLength` theorems (C2, C3) -/

/-- **C2.**  After parsing (so that a request has no recorded response
status), `GetContentLength` returns `(0, true)` when the message is
chunked; with a parseable `Content-Length` it returns `(0, true)` for a
response with status 204, 304 or 1xx, for a response to `CONNECT` with
2xx status and for a response to `HEAD`, and otherwise the parsed
value; with `Content-Length` absent it returns the buffered body count
for a request, `(0, true)` for a response with no buffered body, and
the sentinel `2^63 - 1 - bufferBytesRead` for a response with buffered
body. -/
theorem getContentLength_cases (h : HttpProcessor)
    (hwf : h.request = true → h.responseStatusCode = 0) :
    (IsRequestChunked h = true → GetContentLength h = (0, true)) ∧
    (∀ v vs l, IsRequestChunked h = false →
      lookupHeader h.headers (strBytes "Content-Length") = some (v :: vs) →
      goParseInt64 v = some l →
      ((h.request = false ∧ (h.responseStatusCode = 204 ∨ h.responseStatusCode = 304 ∨
          (100 ≤ h.responseStatusCode ∧ h.responseStatusCode < 200))) →
        GetContentLength h = (0, true)) ∧
      ((h.request = false ∧ h.requestMethod = strBytes "CONNECT" ∧
          200 ≤ h.responseStatusCode ∧ h.responseStatusCode < 300) →
        GetContentLength h = (0, true)) ∧
      ((h.request = false ∧ h.requestMethod = strBytes "HEAD") →
        GetContentLength h = (0, true)) ∧
      (¬ (h.request = false ∧ (h.responseStatusCode = 204 ∨ h.responseStatusCode = 304 ∨
            (100 ≤ h.responseStatusCode ∧ h.responseStatusCode < 200))) →
       ¬ (h.request = false ∧ h.requestMethod = strBytes "CONNECT" ∧
            200 ≤ h.responseStatusCode ∧ h.responseStatusCode < 300) →
       ¬ (h.request = false ∧ h.requestMethod = strBytes "HEAD") →
        GetContentLength h = (l, true))) ∧
    (IsRequestChunked h = false →
      lookupHeader h.headers (strBytes "Content-Length") = none →
      (h.request = true → GetContentLength h = (h.bufferBytesRead - h.bodyStartsIndex, true)) ∧
      (h.request = false → h.bufferBytesRead - h.bodyStartsIndex = 0 →
        GetContentLength h = (0, true)) ∧
      (h.request = false → 0 < h.bufferBytesRead - h.bodyStartsIndex →
        GetContentLength h = (2 ^ 63 - 1 - h.bufferBytesRead, true))) := by
  refine ⟨fun hc => by simp [GetContentLength, hc], ?_, ?_⟩
  · intro v vs l hc hlook hparse
    have hbase : GetContentLength h =
        (if h.responseStatusCode = 204 ∨ h.responseStatusCode = 304 ∨
            (100 ≤ h.responseStatusCode ∧ h.responseStatusCode < 200) then
          ((0 : Int), true)
        else if h.request = false ∧ h.requestMethod = strBytes "CONNECT" ∧
            (200 ≤ h.responseStatusCode ∧ h.responseStatusCode < 300) then
          (0, true)
        else if h.request = false ∧ h.requestMethod = strBytes "HEAD" then
          (0, true)
        else (l, true)) := by
      simp [GetContentLength, hc, hlook, hparse]
    refine ⟨?_, ?_, ?_, ?_⟩
    · rintro ⟨-, hs⟩
      rw [hbase, if_pos hs]
    · rintro ⟨hreq, hm, hs1, hs2⟩
      rw [hbase]
      split
      · rfl
      · rw [if_pos ⟨hreq, hm, hs1, hs2⟩]
    · rintro ⟨hreq, hm⟩
      rw [hbase]
      split
      · rfl
      · split
        · rfl
        · rw [if_pos ⟨hreq, hm⟩]
    · intro h1 h2 h3
      rw [hbase]
      cases hr : h.request with
      | true =>
        have hs0 : h.responseStatusCode = 0 := hwf hr
        simp [hs0, hr]
      | false =>
        rw [if_neg (fun hs => h1 ⟨hr, hs⟩), if_neg (fun hx => h2 ⟨hr, hx.2⟩),
          if_neg (fun hx => h3 ⟨hr, hx.2⟩)]
  · intro hc hlook
    refine ⟨fun hr => by simp [GetContentLength, hc, hlook, hr], ?_, ?_⟩
    · intro hr hzero
      simp [GetContentLength, hc, hlook, hr, hzero]
    · intro hr hpos
      simp [GetContentLength, hc, hlook, hr, hpos, not_lt.mpr (le_of_lt hpos)]

/-- **C2, witness.**  On a response with status 200 to a `GET` request
and `Content-Length: 12`, `GetContentLength` returns `(12, true)`. -/
theorem getContentLength_cases_witness :
    GetContentLength responseWithCL12 = (12, true) := by
  have h := (getContentLength_cases responseWithCL12 (by decide)).2.1
    (strBytes "12") [] 12 (by decide) (by decide) (by decide)
  exact h.2.2.2 (by decide) (by decide) (by decide)

/-- **C3, counterexample.**  On a non-chunked message whose
`Content-Length` is `"abc"` (present but not a decimal integer),
`GetContentLength` returns `(0, false)`, not `(0, true)` as claimed. -/
theorem getContentLength_unparseable_counterexample :
    IsRequestChunked responseWithBadCL = false ∧
    lookupHeader responseWithBadCL.headers (strBytes "Content-Length") =
      some [strBytes "abc"] ∧
    goParseInt64 (strBytes "abc") = none ∧
    GetContentLength responseWithBadCL = (0, false) ∧
    GetContentLength responseWithBadCL ≠ (0, true) := by
  refine ⟨by decide, by decide, by decide, by decide, by decide⟩

/-- **C3 (amended).**  For every parsed message that is not chunked and
whose `Content-Length` header is present but does not parse as a
decimal integer, `GetContentLength` returns `(0, false)`. -/
theorem getContentLength_unparseable (h : HttpProcessor) (v : List Nat)
    (vs : List (List Nat)) (hc : IsRequestChunked h = false)
    (hlook : lookupHeader h.headers (strBytes "Content-Length") = some (v :: vs))
    (hparse : goParseInt64 v = none) :
    GetContentLength h = (0, false) := by
  simp [GetContentLength, hc, hlook, hparse]

/-- **C3 (amended), witness.**  The amended statement applied to the
concrete state with `Content-Length: abc`. -/
theorem getContentLength_unparseable_witness :
    GetContentLength responseWithBadCL = (0, false) :=
  getContentLength_unparseable responseWithBadCL (strBytes "abc") []
    (by decide) (by decide) (by decide)

/-! ### Start-line classification theorems (C9) -/

lemma parseRequestLine_inv (line m uri proto : List Nat)
    (h : parseRequestLine line = some (m, uri, proto)) :
    m = (cutSpace line).1 ∧ uri = (cutSpace (cutSpace line).2.1).1 := by
  unfold parseRequestLine at h
  split at h
  · have h' := Option.some.inj h
    exact ⟨(congrArg Prod.fst h').symm, (congrArg (fun t => t.2.1) h').symm⟩
  · exact absurd h (by simp)

lemma parseResponseLine_inv (line p s : List Nat) (c : Int)
    (h : parseResponseLine line = some (p, s, c)) :
    p = (cutSpace line).1 ∧ s = (cutSpace line).2.1 ∧
      (cutSpace s).1.length = 3 ∧ goParseInt64 (cutSpace s).1 = some c ∧
      0 ≤ c := by
  unfold parseResponseLine at h
  split at h
  · exact absurd h (by simp)
  · split at h
    · exact absurd h (by simp)
    · rename_i hlen3
      split at h
      · exact absurd h (by simp)
      · rename_i code hcode
        split at h
        · exact absurd h (by simp)
        · rename_i hnonneg
          obtain ⟨hp, hs, hc⟩ : p = (cutSpace line).1 ∧ s = (cutSpace line).2.1 ∧
              code = c := by
            have := Option.some.inj h
            exact ⟨congrArg Prod.fst this |>.symm,
              congrArg (fun t => t.2.1) this |>.symm,
              congrArg (fun t => t.2.2) this⟩
          subst hp hs hc
          exact ⟨rfl, rfl, by simpa using hlen3, hcode, le_of_not_lt hnonneg⟩

/-- **C9, counterexample.**  Two failures of the claim as stated.
On the start-line `"HTTP/1.1 +12 OK"` the first word is not a token, the
processor classifies it as a response and *records status code 12*, yet
the status token `"+12"` is not three digits.  On the start-line
`"GET /foo"` the first word `GET` is a valid token and the request-URI
`"/foo"` is parseable (witnessed by a parser accepting everything), yet
the processor classifies the line as a *response* because the line has
no third space-separated part. -/
theorem classifyStartLine_counterexample :
    (validMethod (cutSpace (strBytes "HTTP/1.1 +12 OK")).1 = false ∧
     (classifyStartLine (fun _ => some ())
        (strBytes "HTTP/1.1 +12 OK")).responseStatusCode = 12 ∧
     ((cutSpace (cutSpace (strBytes "HTTP/1.1 +12 OK")).2.1).1.all isDigitByte
        = false)) ∧
    (validMethod (cutSpace (strBytes "GET /foo")).1 = true ∧
     (fun _ => some ()) (cutSpace (cutSpace (strBytes "GET /foo")).2.1).1
        = some () ∧
     (classifyStartLine (fun _ => some ()) (strBytes "GET /foo")).request
        = false) := by
  exact ⟨⟨by decide, by decide, by decide⟩, ⟨by decide, by decide, by decide⟩⟩

/-- **C9 (amended).**  For every start-line, if the first
space-separated word is not a valid RFC 7230 token the processor
classifies the message as a response, recording the status code `c`
exactly when the line parses as `PROTO SP STATUS`, where the first
space-separated token of `STATUS` has exactly 3 characters and parses
by `strconv.Atoi` to the nonnegative `c` (and recording nothing — code
0 — otherwise); if the line has the form `METHOD SP URI SP PROTO` with
`METHOD` a valid token, the processor classifies the message as a
request, recording the method, the raw request-URI, and the result of
URL-parsing the request-URI. -/
theorem classifyStartLine_spec {α : Type} (parseRequestURI : List Nat → Option α)
    (line : List Nat) :
    (validMethod (cutSpace line).1 = false →
      (classifyStartLine parseRequestURI line).request = false ∧
      (∀ p s c, parseResponseLine line = some (p, s, c) →
        (classifyStartLine parseRequestURI line).responseStatusCode = c ∧
        (cutSpace s).1.length = 3 ∧ goParseInt64 (cutSpace s).1 = some c ∧
        0 ≤ c) ∧
      (parseResponseLine line = none →
        (classifyStartLine parseRequestURI line).responseStatusCode = 0)) ∧
    (∀ m uri proto, parseRequestLine line = some (m, uri, proto) →
      validMethod m = true →
      (classifyStartLine parseRequestURI line).request = true ∧
      (classifyStartLine parseRequestURI line).requestMethod = m ∧
      (classifyStartLine parseRequestURI line).requestRawURI = uri ∧
      (classifyStartLine parseRequestURI line).url = parseRequestURI uri) := by
  constructor
  · intro hvm
    have hbase : (match parseRequestLine line with
        | some (m, uri, _) =>
          if validMethod m then
            { request := true, requestMethod := m, requestRawURI := uri,
              url := parseRequestURI uri, responseStatusCode := 0 : StartLine α }
          else ⟨false, [], [], none, 0⟩
        | none => ⟨false, [], [], none, 0⟩) = (⟨false, [], [], none, 0⟩ : StartLine α) := by
      cases hp : parseRequestLine line with
      | none => rfl
      | some t =>
        obtain ⟨m, uri, proto⟩ := t
        have hm := (parseRequestLine_inv line m uri proto hp).1
        simp [hm, hvm]
    refine ⟨?_, ?_, ?_⟩
    · unfold classifyStartLine
      simp only [hbase]
      cases hr : parseResponseLine line with
      | none => simp [hr]
      | some t => obtain ⟨p, s, c⟩ := t; simp [hr]
    · intro p s c hr
      obtain ⟨hp, hs, hlen, hparse, hpos⟩ := parseResponseLine_inv line p s c hr
      refine ⟨?_, hlen, hparse, hpos⟩
      unfold classifyStartLine
      simp only [hbase]
      simp [hr]
    · intro hr
      unfold classifyStartLine
      simp only [hbase]
      simp [hr]
  · intro m uri proto hp hvm
    unfold classifyStartLine
    simp [hp, hvm]

/-! ### A specification for `listIndexOf` (`bytes.Index`) -/

lemma listIndexOf_go_spec (l pat : List Nat) :
    ∀ (xs : List Nat) (i : Nat), xs = l.drop i →
      ∀ n, (listIndexOf.go l pat xs i = some n ↔
        (i ≤ n ∧ occursAt pat l n ∧
          ∀ j, i ≤ j → j < n → ¬ occursAt pat l j)) := by
  intro xs
  induction xs with
  | nil =>
    intro i hxs n
    have hlen : l.length ≤ i := by
      have := congrArg List.length hxs
      simp only [List.length_nil, List.length_drop] at this
      omega
    constructor
    · intro h
      unfold listIndexOf.go at h
      split at h
      · rename_i hcond
        obtain rfl : i = n := Option.some.inj h
        refine ⟨le_rfl, ⟨?_, ?_⟩, fun j h1 h2 => absurd h1 (by omega)⟩
        · rw [hcond.1]; simpa using hcond.2.ge
        · rw [hcond.1]; simp
      · exact absurd h (by simp)
    · rintro ⟨hin, hocc, hmin⟩
      obtain ⟨hle, htake⟩ := hocc
      have hp0 : pat.length = 0 := by omega
      have hpat : pat = [] := List.length_eq_zero.mp hp0
      have hni : n = i := by omega
      have hli : l.length = i := by omega
      subst hni
      unfold listIndexOf.go
      rw [if_pos ⟨hpat, hli⟩]
  | cons x xs ih =>
    intro i hxs n
    have hdrop : xs = l.drop (i + 1) := by
      have h1 : l.drop i = x :: xs := hxs.symm
      have h2 : (l.drop i).drop 1 = xs := by rw [h1]; rfl
      rw [List.drop_drop] at h2
      exact h2.symm
    unfold listIndexOf.go
    by_cases hocc : occursAt pat l i
    · rw [if_pos hocc]
      constructor
      · intro h
        obtain rfl : i = n := Option.some.inj h
        exact ⟨le_rfl, hocc, fun j h1 h2 => absurd h1 (by omega)⟩
      · rintro ⟨hin, hoccn, hmin⟩
        by_cases hni : n = i
        · rw [hni]
        · exact absurd hocc (hmin i le_rfl (by omega))
    · rw [if_neg hocc, ih (i + 1) hdrop n]
      constructor
      · rintro ⟨h1, h2, h3⟩
        refine ⟨by omega, h2, fun j hj1 hj2 => ?_⟩
        rcases Nat.eq_or_lt_of_le hj1 with hji | hlt
        · rw [← hji]; exact hocc
        · exact h3 j hlt hj2
      · rintro ⟨h1, h2, h3⟩
        have hni : ¬ n = i := fun hni => hocc (hni ▸ h2)
        exact ⟨by omega, h2, fun j hj1 hj2 => h3 j (by omega) hj2⟩

lemma listIndexOf_eq_some_iff (l pat : List Nat) (n : Nat) :
    listIndexOf l pat = some n ↔
      occursAt pat l n ∧ ∀ j, j < n → ¬ occursAt pat l j := by
  unfold listIndexOf
  rw [listIndexOf_go_spec l pat l 0 (by simp) n]
  constructor
  · rintro ⟨-, h2, h3⟩
    exact ⟨h2, fun j hj => h3 j (Nat.zero_le j) hj⟩
  · rintro ⟨h2, h3⟩
    exact ⟨Nat.zero_le n, h2, fun j _ hj => h3 j hj⟩

lemma occursAt_here (a pat b : List Nat) :
    occursAt pat (a ++ (pat ++ b)) a.length := by
  refine ⟨by simp, ?_⟩
  rw [List.drop_left, List.take_left]

lemma occursAt_prefix {p q l : List Nat} {i : Nat}
    (h : occursAt (p ++ q) l i) : occursAt p l i := by
  obtain ⟨h1, h2⟩ := h
  refine ⟨by simp at h1 ⊢; omega, ?_⟩
  have hh : (l.drop i).take p.length =
      ((l.drop i).take (p ++ q).length).take p.length := by
    rw [List.take_take]
    congr 1
    simp only [List.length_append]
    omega
  rw [hh, h2, List.take_left]

lemma occursAt_single_get {c : Nat} {l : List Nat} {j : Nat}
    (h : occursAt [c] l j) : l.get? j = some c := by
  obtain ⟨h1, h2⟩ := h
  rw [List.get?_eq_getElem?, ← List.head?_drop]
  cases hd : l.drop j with
  | nil => rw [hd] at h2; simp at h2
  | cons a t =>
    rw [hd] at h2
    simp only [List.length_cons, List.length_nil, List.take_succ_cons,
      List.take_zero] at h2
    have ha : a = c := by injection h2
    simp [ha]

lemma listIndexOf_newline (a b : List Nat) (hno : ∀ x ∈ a, ¬ x = nlByte) :
    listIndexOf (a ++ nlByte :: b) [nlByte] = some a.length := by
  rw [listIndexOf_eq_some_iff]
  constructor
  · exact occursAt_here a [nlByte] b
  · intro j hj hocc
    have hget := occursAt_single_get hocc
    rw [List.get?_append (by omega)] at hget
    exact hno _ (List.get?_mem hget) rfl

lemma take_of_append_assoc (a x : List Nat) :
    (a ++ x).take a.length = a := List.take_left a x

lemma drop_append_len (a x : List Nat) (k : Nat) :
    (a ++ x).drop (a.length + k) = x.drop k := by
  rw [← List.drop_drop, List.drop_left]

/-! ### The in-place buffer rewrite of `replaceHeader` (towards C7) -/

lemma get?_append_len (a x : List Nat) (k : Nat) :
    (a ++ x).get? (a.length + k) = x.get? k := by
  rw [List.get?_append_right (by omega)]
  congr 1
  omega

lemma adjustBodyReader_buf (h : HttpProcessor) :
    (adjustBodyReader h).buf = h.buf := by
  unfold adjustBodyReader
  split
  · rfl
  · split <;> rfl

lemma adjustBodyReader_headers (h : HttpProcessor) :
    (adjustBodyReader h).headers = h.headers := by
  unfold adjustBodyReader
  split
  · rfl
  · split <;> rfl

lemma adjustBodyReader_bufferUsed (h : HttpProcessor) :
    (adjustBodyReader h).bufferUsed = h.bufferUsed := by
  unfold adjustBodyReader
  split
  · rfl
  · split <;> rfl

lemma adjustBodyReader_urlHostQuery (h : HttpProcessor) :
    (adjustBodyReader h).urlHostQuery = h.urlHostQuery := by
  unfold adjustBodyReader
  split
  · rfl
  · split <;> rfl

lemma adjustBufferPositions_buf (h : HttpProcessor) (off : Int) :
    (adjustBufferPositions h off).buf = h.buf := by
  unfold adjustBufferPositions
  rw [adjustBodyReader_buf]

lemma adjustBufferPositions_headers (h : HttpProcessor) (off : Int) :
    (adjustBufferPositions h off).headers = h.headers := by
  unfold adjustBufferPositions
  rw [adjustBodyReader_headers]

lemma adjustBufferPositions_bufferUsed (h : HttpProcessor) (off : Int) :
    (adjustBufferPositions h off).bufferUsed = h.bufferUsed := by
  unfold adjustBufferPositions
  rw [adjustBodyReader_bufferUsed]

lemma adjustBufferPositions_urlHostQuery (h : HttpProcessor) (off : Int) :
    (adjustBufferPositions h off).urlHostQuery = h.urlHostQuery := by
  unfold adjustBufferPositions
  rw [adjustBodyReader_urlHostQuery]

lemma findHeaderNameIndex_eq (buf name : List Nat) (p fuel : Nat)
    (hfirst : listIndexOf buf name = some p)
    (hcolon : buf.get? (p + name.length) = some colonByte)
    (hpos : 0 < p) (hnl : buf.get? (p - 1) = some nlByte) :
    findHeaderNameIndex buf name (fuel + 1) 0 = some p := by
  have hocc := (listIndexOf_eq_some_iff buf name p).mp hfirst
  have hlenp : p + name.length ≤ buf.length := hocc.1.1
  unfold findHeaderNameIndex
  rw [if_neg (by omega), List.drop_zero, hfirst]
  simp only [Nat.zero_add]
  rw [if_neg (fun hx => hx hcolon), if_neg (fun hx => hx ⟨hpos, hnl⟩)]

lemma listReplace1_eq_of_index (l old new : List Nat) (i : Nat)
    (h : listIndexOf l old = some i) :
    listReplace1 l old new = l.take i ++ new ++ l.drop (i + old.length) := by
  unfold listReplace1
  rw [h]

lemma listReplace1_middle (a old new b : List Nat)
    (hfirst : listIndexOf (a ++ (old ++ b)) old = some a.length) :
    listReplace1 (a ++ (old ++ b)) old new = a ++ (new ++ b) := by
  rw [listReplace1_eq_of_index _ _ _ _ hfirst, List.take_left, drop_append_len,
    List.drop_left]
  simp

lemma replaceHeaderBuf_some (h' : HttpProcessor) (n o v : List Nat) (p : Nat)
    (hfind : findHeaderNameIndex h'.buf n (h'.buf.length + 1) 0 = some p) :
    replaceHeaderBuf h' n o v = replaceHeaderCutLine h' o v p := by
  unfold replaceHeaderBuf
  rw [hfind]

lemma replaceHeaderCutLine_some (h' : HttpProcessor) (o v : List Nat)
    (start e : Nat)
    (hline : listIndexOf (h'.buf.drop start) [nlByte] = some e) :
    replaceHeaderCutLine h' o v start =
      adjustBufferPositions
        { h' with
          buf := listReplace1 h'.buf ((h'.buf.drop start).take e)
            (listReplace1 ((h'.buf.drop start).take e) o v) }
        ((v.length : Int) - (o.length : Int)) := by
  unfold replaceHeaderCutLine
  rw [hline]

/-- The effect of `replaceHeaderBuf` on a well-formed buffer
`C ++ headerLine name old ++ LF ++ D` whose header line contains the
first occurrence of `name`. -/
lemma replaceHeaderBuf_eq (h' : HttpProcessor) (name old new C D : List Nat)
    (hbuf : h'.buf = C ++ (headerLine name old ++ 10 :: D))
    (hC : 0 < C.length)
    (hCnl : C.get? (C.length - 1) = some nlByte)
    (hfirst : listIndexOf h'.buf name = some C.length)
    (hname10 : ∀ b ∈ name, ¬ b = nlByte)
    (hold10 : ∀ b ∈ old, ¬ b = nlByte) :
    replaceHeaderBuf h' name old new =
      adjustBufferPositions
        { h' with
          buf := C ++ (listReplace1 (headerLine name old) old new ++ 10 :: D) }
        ((new.length : Int) - (old.length : Int)) := by
  have hcolon : h'.buf.get? (C.length + name.length) = some colonByte := by
    rw [hbuf, get?_append_len]
    rw [show headerLine name old ++ 10 :: D
        = name ++ ((58 :: 32 :: (old ++ [13])) ++ 10 :: D) from by
      simp [headerLine]]
    have h0 := get?_append_len name ((58 :: 32 :: (old ++ [13])) ++ 10 :: D) 0
    simpa [colonByte] using h0
  have hnl : h'.buf.get? (C.length - 1) = some nlByte := by
    rw [hbuf, List.get?_append (by omega)]
    exact hCnl
  have hno : ∀ x ∈ headerLine name old, ¬ x = nlByte := by
    intro x hx
    unfold headerLine at hx
    simp only [List.mem_append, List.mem_cons, List.mem_singleton,
      List.not_mem_nil, or_false] at hx
    rcases hx with hx | hx | hx | hx | hx
    · exact hname10 x hx
    · subst hx; decide
    · subst hx; decide
    · exact hold10 x hx
    · subst hx; decide
  have hline : listIndexOf (h'.buf.drop C.length) [nlByte]
      = some (headerLine name old).length := by
    rw [hbuf, List.drop_left]
    exact listIndexOf_newline _ _ hno
  have htemp : (h'.buf.drop C.length).take (headerLine name old).length
      = headerLine name old := by
    rw [hbuf, List.drop_left, List.take_left]
  have houter : listIndexOf h'.buf (headerLine name old) = some C.length := by
    rw [listIndexOf_eq_some_iff]
    constructor
    · rw [hbuf]; exact occursAt_here _ _ _
    · intro j hj hocc
      have hocc' : occursAt (name ++ (58 :: 32 :: (old ++ [13]))) h'.buf j := hocc
      have hname_occ : occursAt name h'.buf j :=
        occursAt_prefix (q := 58 :: 32 :: (old ++ [13])) hocc'
      exact ((listIndexOf_eq_some_iff _ _ _).mp hfirst).2 j hj hname_occ
  have hsplice : listReplace1 h'.buf (headerLine name old)
      (listReplace1 (headerLine name old) old new) =
      C ++ (listReplace1 (headerLine name old) old new ++ 10 :: D) := by
    rw [listReplace1_eq_of_index _ _ _ _ houter, hbuf, List.take_left,
      drop_append_len, List.drop_left]
    simp
  have hfind := findHeaderNameIndex_eq h'.buf name C.length h'.buf.length
    hfirst hcolon hC hnl
  rw [replaceHeaderBuf_some h' name old new C.length hfind,
    replaceHeaderCutLine_some h' old new C.length (headerLine name old).length hline,
    htemp, hsplice]

lemma headerLine_split (n v : List Nat) :
    headerLine n v = (n ++ [58, 32]) ++ (v ++ [13]) := by
  simp [headerLine]

lemma listReplace1_none (l old new : List Nat)
    (h : listIndexOf l old = none) : listReplace1 l old new = l := by
  unfold listReplace1
  rw [h]

/-- Replacing the (first-occurring) value inside a header line yields
the header line with the new value. -/
lemma listReplace1_headerLine (n o w : List Nat)
    (hfirstOld : listIndexOf (headerLine n o) o = some (n.length + 2)) :
    listReplace1 (headerLine n o) o w = headerLine n w := by
  have h2 : (n ++ [58, 32]).length = n.length + 2 := by simp
  rw [headerLine_split] at hfirstOld
  rw [← h2] at hfirstOld
  rw [headerLine_split, headerLine_split]
  exact listReplace1_middle (n ++ [58, 32]) o w [13] hfirstOld

lemma appendEnd_get (X : List Nat) :
    (X ++ [nlByte]).get? ((X ++ [nlByte]).length - 1) = some nlByte := by
  rw [show (X ++ [nlByte]).length - 1 = X.length + 0 from by simp]
  rw [get?_append_len]
  rfl

lemma replaceHeader_eq_single (h : HttpProcessor) (name value old : List Nat)
    (hl : lookupHeader h.headers name = some [old]) :
    replaceHeader h name value =
      if h.bufferUsed then
        { h with headers := setHeader h.headers name [value] }
      else
        replaceHeaderBuf { h with headers := setHeader h.headers name [value] }
          name old value := by
  unfold replaceHeader
  rw [hl]

/-- The complete effect of `replaceHeader` on an undrained state with a
well-formed buffer: the map entry and the header line are both
rewritten, and the cursors shift by the length difference. -/
lemma replaceHeader_undrained_eq (h : HttpProcessor)
    (name old new C D : List Nat)
    (hused : h.bufferUsed = false)
    (hlook : lookupHeader h.headers name = some [old])
    (hbuf : h.buf = C ++ (headerLine name old ++ 10 :: D))
    (hC : 0 < C.length)
    (hCnl : C.get? (C.length - 1) = some nlByte)
    (hfirst : listIndexOf h.buf name = some C.length)
    (hname10 : ∀ b ∈ name, ¬ b = nlByte)
    (hold10 : ∀ b ∈ old, ¬ b = nlByte) :
    replaceHeader h name new =
      adjustBufferPositions
        { h with
          headers := setHeader h.headers name [new],
          buf := C ++ (listReplace1 (headerLine name old) old new ++ 10 :: D) }
        ((new.length : Int) - (old.length : Int)) := by
  rw [replaceHeader_eq_single h name new old hlook, if_neg (by simp [hused])]
  exact replaceHeaderBuf_eq
    { h with headers := setHeader h.headers name [new] }
    name old new C D hbuf hC hCnl hfirst hname10 hold10

/-! ### Header replacement after the buffer is drained (C8, C10) -/

lemma replaceHeader_drained_eq (h : HttpProcessor) (name value old : List Nat)
    (hused : h.bufferUsed = true)
    (hpres : lookupHeader h.headers name = some [old]) :
    replaceHeader h name value =
      { h with headers := setHeader h.headers name [value] } := by
  simp [replaceHeader, hpres, hused]

lemma replaceHeader_drained (h : HttpProcessor) (name value : List Nat)
    (hused : h.bufferUsed = true) :
    ∃ hs, replaceHeader h name value = { h with headers := hs } := by
  cases hl : lookupHeader h.headers name with
  | none => exact ⟨h.headers, by simp [replaceHeader, hl]⟩
  | some vs =>
    match vs with
    | [] => exact ⟨h.headers, by simp [replaceHeader, hl]⟩
    | [v] => exact ⟨setHeader h.headers name [value],
        replaceHeader_drained_eq h name value v hused hl⟩
    | v1 :: v2 :: rest => exact ⟨h.headers, by simp [replaceHeader, hl]⟩

lemma setHostHeader_eq_single (dom : List Nat) (h : HttpProcessor)
    (value v : List Nat)
    (hl : lookupHeader (replaceHeader h (strBytes "Host") value).headers
      (strBytes "Origin") = some [v]) :
    SetHostHeader dom h value =
      if listContains (goToLower v) (goToLower (domainPrefix dom)) then
        replaceHeader (replaceHeader h (strBytes "Host") value)
          (strBytes "Origin") (listReplace1 v (domainPrefix dom) value)
      else replaceHeader h (strBytes "Host") value := by
  unfold SetHostHeader
  rw [hl]

lemma setHostHeader_eq_default (dom : List Nat) (h : HttpProcessor)
    (value : List Nat)
    (hl : ∀ v, ¬ lookupHeader (replaceHeader h (strBytes "Host") value).headers
      (strBytes "Origin") = some [v]) :
    SetHostHeader dom h value = replaceHeader h (strBytes "Host") value := by
  unfold SetHostHeader
  cases hx : lookupHeader (replaceHeader h (strBytes "Host") value).headers
      (strBytes "Origin") with
  | none => rfl
  | some vs =>
    match vs with
    | [] => rfl
    | [v] => exact absurd hx (hl v)
    | v1 :: v2 :: rest => rfl

lemma setHostHeader_drained (dom : List Nat) (h : HttpProcessor)
    (value : List Nat) (hused : h.bufferUsed = true) :
    ∃ hs, SetHostHeader dom h value = { h with headers := hs } := by
  obtain ⟨hs1, e1⟩ := replaceHeader_drained h (strBytes "Host") value hused
  by_cases hex : ∃ v, lookupHeader
      (replaceHeader h (strBytes "Host") value).headers
      (strBytes "Origin") = some [v]
  · obtain ⟨v, hl⟩ := hex
    rw [setHostHeader_eq_single dom h value v hl]
    by_cases hc : listContains (goToLower v) (goToLower (domainPrefix dom)) = true
    · rw [if_pos hc]
      have hused1 : (replaceHeader h (strBytes "Host") value).bufferUsed = true := by
        rw [e1]; exact hused
      obtain ⟨hs2, e2⟩ := replaceHeader_drained
        (replaceHeader h (strBytes "Host") value) (strBytes "Origin")
        (listReplace1 v (domainPrefix dom) value) hused1
      rw [e2, e1]
      exact ⟨hs2, rfl⟩
    · rw [if_neg hc, e1]
      exact ⟨hs1, rfl⟩
  · rw [setHostHeader_eq_default dom h value (fun v hv => hex ⟨v, hv⟩), e1]
    exact ⟨hs1, rfl⟩

lemma procRead_headers (h : HttpProcessor) (hs : Headers) (k : Nat) :
    procRead { h with headers := hs } k =
      ((procRead h k).1, { (procRead h k).2 with headers := hs }) := by
  unfold procRead
  by_cases he : h.lastError
  · simp [he]
  · by_cases hb : h.bufferUsed
    · cases hi : h.input with
      | nil => simp [he, hb, hi]
      | cons a t => simp [he, hb, hi]
    · by_cases hk : k = 0
      · simp [he, hb, hk]
      · simp [he, hb, hk]

lemma limitedRead_headers (n : Int) (h : HttpProcessor) (hs : Headers) (k : Nat) :
    limitedRead n { h with headers := hs } k =
      ((limitedRead n h k).1, (limitedRead n h k).2.1,
        { (limitedRead n h k).2.2 with headers := hs }) := by
  unfold limitedRead
  by_cases hn : n ≤ 0
  · simp [hn]
  · simp [hn, procRead_headers]

lemma limitedReadRun_headers (sizes : List Nat) :
    ∀ (n : Int) (h : HttpProcessor) (hs : Headers),
      limitedReadRun n { h with headers := hs } sizes = limitedReadRun n h sizes := by
  induction sizes with
  | nil => intro n h hs; rfl
  | cons k ks ih =>
    intro n h hs
    unfold limitedReadRun
    rw [limitedRead_headers]
    exact congrArg _ (ih _ _ _)

/-- **C8.**  If the parse buffer has been fully drained when a header
replacement (`replaceHeader` or `SetHostHeader`) is requested, the
replacement does not touch the byte stream: the buffer contents,
`bufWritePos` and `bodyStartsIndex` are unchanged, and the bytes
subsequently produced — any sequence of reads through the installed
length-limited body reader, at any remaining allowance — are identical
to those produced had the replacement never been requested. -/
theorem replaceHeader_after_drain (h : HttpProcessor)
    (name value dom : List Nat) (hused : h.bufferUsed = true) :
    ((replaceHeader h name value).buf = h.buf ∧
     (replaceHeader h name value).bufWritePos = h.bufWritePos ∧
     (replaceHeader h name value).bodyStartsIndex = h.bodyStartsIndex ∧
     ∀ n sizes, limitedReadRun n (replaceHeader h name value) sizes =
       limitedReadRun n h sizes) ∧
    ((SetHostHeader dom h value).buf = h.buf ∧
     (SetHostHeader dom h value).bufWritePos = h.bufWritePos ∧
     (SetHostHeader dom h value).bodyStartsIndex = h.bodyStartsIndex ∧
     ∀ n sizes, limitedReadRun n (SetHostHeader dom h value) sizes =
       limitedReadRun n h sizes) := by
  obtain ⟨hs1, e1⟩ := replaceHeader_drained h name value hused
  obtain ⟨hs2, e2⟩ := setHostHeader_drained dom h value hused
  rw [e1, e2]
  exact ⟨⟨rfl, rfl, rfl, fun n sizes => limitedReadRun_headers sizes n h hs1⟩,
    ⟨rfl, rfl, rfl, fun n sizes => limitedReadRun_headers sizes n h hs2⟩⟩

/-- **C8, witness.**  On the concrete drained state, a `Host`
replacement leaves the buffer alone and two subsequent reads of the
body reader produce the same bytes as without the replacement. -/
theorem replaceHeader_after_drain_witness :
    (replaceHeader drainedProc (strBytes "Host") (strBytes "a.b.com")).buf =
      drainedProc.buf ∧
    limitedReadRun 10
      (replaceHeader drainedProc (strBytes "Host") (strBytes "a.b.com"))
      [4, 4] =
      limitedReadRun 10 drainedProc [4, 4] := by
  have h := (replaceHeader_after_drain drainedProc (strBytes "Host")
    (strBytes "a.b.com") (strBytes "domain.io") (by decide)).1
  exact ⟨h.1, h.2.2.2 10 [4, 4]⟩

lemma lookupHeader_cons (e : List Nat × List (List Nat)) (rest : Headers)
    (k : List Nat) :
    lookupHeader (e :: rest) k =
      if e.1 = k then some e.2 else lookupHeader rest k := by
  by_cases he : e.1 = k <;> simp [lookupHeader, List.find?, he]

lemma setHeader_cons (e : List Nat × List (List Nat)) (rest : Headers)
    (k : List Nat) (v : List (List Nat)) :
    setHeader (e :: rest) k v =
      (if e.1 = k then (e.1, v) else e) :: setHeader rest k v := rfl

lemma lookupHeader_setHeader_self (hs : Headers) (k : List Nat)
    (v w : List (List Nat)) (hpres : lookupHeader hs k = some w) :
    lookupHeader (setHeader hs k v) k = some v := by
  induction hs with
  | nil => simp [lookupHeader] at hpres
  | cons e rest ih =>
    rw [setHeader_cons]
    by_cases he : e.1 = k
    · rw [if_pos he, lookupHeader_cons]
      rw [show ((e.1, v) : List Nat × List (List Nat)).1 = e.1 from rfl,
        show ((e.1, v) : List Nat × List (List Nat)).2 = v from rfl]
      rw [if_pos he]
    · rw [lookupHeader_cons, if_neg he] at hpres
      rw [if_neg he, lookupHeader_cons, if_neg he]
      exact ih hpres

lemma lookupHeader_setHeader_other (hs : Headers) (k k' : List Nat)
    (v : List (List Nat)) (hne : ¬ k = k') :
    lookupHeader (setHeader hs k' v) k = lookupHeader hs k := by
  induction hs with
  | nil => rfl
  | cons e rest ih =>
    rw [setHeader_cons, lookupHeader_cons e rest k]
    by_cases he : e.1 = k'
    · have hek : ¬ e.1 = k := fun hh => hne (by rw [← hh, he])
      rw [if_pos he, lookupHeader_cons]
      rw [show ((e.1, v) : List Nat × List (List Nat)).1 = e.1 from rfl]
      rw [if_neg hek, if_neg hek]
      exact ih
    · rw [if_neg he, lookupHeader_cons]
      by_cases hek : e.1 = k
      · rw [if_pos hek, if_pos hek]
      · rw [if_neg hek, if_neg hek]
        exact ih

/-- After a drained-state `SetHostHeader`, the `Host` entry of the
parsed headers map carries the new value while the buffer is
untouched. -/
lemma setHostHeader_drained_host (dom : List Nat) (h : HttpProcessor)
    (value old : List Nat) (hused : h.bufferUsed = true)
    (hhost : lookupHeader h.headers (strBytes "Host") = some [old]) :
    lookupHeader (SetHostHeader dom h value).headers (strBytes "Host") =
        some [value] ∧
      (SetHostHeader dom h value).buf = h.buf ∧
      (SetHostHeader dom h value).urlHostQuery = h.urlHostQuery := by
  have e1 := replaceHeader_drained_eq h (strBytes "Host") value old hused hhost
  have hlook1 : lookupHeader
      (replaceHeader h (strBytes "Host") value).headers (strBytes "Host") =
      some [value] := by
    rw [e1]
    exact lookupHeader_setHeader_self _ _ _ _ hhost
  by_cases hex : ∃ v, lookupHeader
      (replaceHeader h (strBytes "Host") value).headers
      (strBytes "Origin") = some [v]
  · obtain ⟨v, hl⟩ := hex
    rw [setHostHeader_eq_single dom h value v hl]
    by_cases hc : listContains (goToLower v) (goToLower (domainPrefix dom)) = true
    · rw [if_pos hc]
      have hused1 : (replaceHeader h (strBytes "Host") value).bufferUsed = true := by
        rw [e1]; exact hused
      have e2 := replaceHeader_drained_eq
        (replaceHeader h (strBytes "Host") value) (strBytes "Origin")
        (listReplace1 v (domainPrefix dom) value) v hused1 hl
      rw [e2]
      refine ⟨?_, by rw [e1], by rw [e1]⟩
      show lookupHeader (setHeader
        (replaceHeader h (strBytes "Host") value).headers
        (strBytes "Origin") [listReplace1 v (domainPrefix dom) value])
        (strBytes "Host") = some [value]
      rw [lookupHeader_setHeader_other _ _ _ _ (by decide)]
      exact hlook1
    · rw [if_neg hc]
      exact ⟨hlook1, by rw [e1], by rw [e1]⟩
  · rw [setHostHeader_eq_default dom h value (fun v hv => hex ⟨v, hv⟩)]
    exact ⟨hlook1, by rw [e1], by rw [e1]⟩

/-- **C10.**  Calling `SetHostHeader` (or `replaceHeader`) after the
parse buffer has been fully drained still replaces the value in the
parsed headers map, so a subsequent `GetHost()` returns the new value
(whenever the URL query does not override it) even though the buffer —
the forwarded bytes — kept the old one. -/
theorem setHostHeader_after_drain_getHost (dom : List Nat)
    (h : HttpProcessor) (value old : List Nat)
    (hused : h.bufferUsed = true)
    (hhost : lookupHeader h.headers (strBytes "Host") = some [old])
    (hurl : h.urlHostQuery = none ∨ h.urlHostQuery = some []) :
    GetHost (SetHostHeader dom h value) = some value ∧
      (SetHostHeader dom h value).buf = h.buf ∧
      GetHost (replaceHeader h (strBytes "Host") value) = some value ∧
      (replaceHeader h (strBytes "Host") value).buf = h.buf := by
  obtain ⟨hl1, hb1, hu1⟩ :=
    setHostHeader_drained_host dom h value old hused hhost
  have e1 := replaceHeader_drained_eq h (strBytes "Host") value old hused hhost
  refine ⟨?_, hb1, ?_, by rw [e1]⟩
  · unfold GetHost
    rw [hu1]
    rcases hurl with hq | hq <;>
      simp [hq, hostFromHeaders, hl1]
  · unfold GetHost
    rw [e1]
    rcases hurl with hq | hq <;>
      simp [hq, hostFromHeaders, lookupHeader_setHeader_self _ _ _ _ hhost]

/-- **C10, witness.**  On the concrete drained state, `GetHost` after
`SetHostHeader("a.b.com")` returns the new value while the buffer kept
`domain.io`. -/
theorem setHostHeader_after_drain_getHost_witness :
    GetHost (SetHostHeader (strBytes "domain.io") drainedProc
        (strBytes "a.b.com")) = some (strBytes "a.b.com") ∧
      (SetHostHeader (strBytes "domain.io") drainedProc
        (strBytes "a.b.com")).buf = drainedProc.buf := by
  have h := setHostHeader_after_drain_getHost (strBytes "domain.io")
    drainedProc (strBytes "a.b.com") (strBytes "domain.io")
    (by decide) (by decide) (Or.inl (by decide))
  exact ⟨h.1, h.2.1⟩

/-- **C7 (amended).**  On an undrained parsed state whose buffer holds
a `Host` line and then an `Origin` line (each header present once in
the map, the buffer well formed), `SetHostHeader(value)` overwrites the
`Host` header with `value` in the map and in the buffer; and when the
single `Origin` value contains the configured domain prefix
case-insensitively, the `Origin` value is rewritten by replacing its
*first case-sensitive occurrence* of the domain prefix with `value` —
so when the `Origin` value contains the domain only with different
letter case (no case-sensitive occurrence), the `Origin` header keeps
its old value, in the map and in the buffer. -/
theorem setHostHeader_spec (dom value hostVal originVal C1 body : List Nat)
    (h : HttpProcessor)
    (hused : h.bufferUsed = false)
    (hhost : lookupHeader h.headers (strBytes "Host") = some [hostVal])
    (horigin : lookupHeader h.headers (strBytes "Origin") = some [originVal])
    (hbuf : h.buf = C1 ++ (headerLine (strBytes "Host") hostVal ++
      10 :: (headerLine (strBytes "Origin") originVal ++ 10 :: (13 :: 10 :: body))))
    (hC1 : 0 < C1.length)
    (hC1nl : C1.get? (C1.length - 1) = some nlByte)
    (hfirstHost : listIndexOf h.buf (strBytes "Host") = some C1.length)
    (hhv10 : ∀ b ∈ hostVal, ¬ b = nlByte)
    (hov10 : ∀ b ∈ originVal, ¬ b = nlByte)
    (hfirstOldHost : listIndexOf (headerLine (strBytes "Host") hostVal) hostVal
      = some ((strBytes "Host").length + 2))
    (hfirstOrigin2 : listIndexOf
      (C1 ++ (headerLine (strBytes "Host") value ++
        10 :: (headerLine (strBytes "Origin") originVal ++ 10 :: (13 :: 10 :: body))))
      (strBytes "Origin")
      = some (C1 ++ (headerLine (strBytes "Host") value ++ [10])).length)
    (hfirstOldOrigin : listIndexOf (headerLine (strBytes "Origin") originVal)
      originVal = some ((strBytes "Origin").length + 2))
    (hcontains : listContains (goToLower originVal)
      (goToLower (domainPrefix dom)) = true) :
    (lookupHeader (SetHostHeader dom h value).headers (strBytes "Host")
        = some [value]) ∧
    (∀ O1 O2, originVal = O1 ++ (domainPrefix dom ++ O2) →
      listIndexOf originVal (domainPrefix dom) = some O1.length →
      lookupHeader (SetHostHeader dom h value).headers (strBytes "Origin")
          = some [O1 ++ (value ++ O2)] ∧
      (SetHostHeader dom h value).buf =
        C1 ++ (headerLine (strBytes "Host") value ++
          10 :: (headerLine (strBytes "Origin") (O1 ++ (value ++ O2)) ++
            10 :: (13 :: 10 :: body)))) ∧
    (listIndexOf originVal (domainPrefix dom) = none →
      lookupHeader (SetHostHeader dom h value).headers (strBytes "Origin")
          = some [originVal] ∧
      (SetHostHeader dom h value).buf =
        C1 ++ (headerLine (strBytes "Host") value ++
          10 :: (headerLine (strBytes "Origin") originVal ++
            10 :: (13 :: 10 :: body)))) := by
  have e1 : replaceHeader h (strBytes "Host") value =
      adjustBufferPositions
        { h with
          headers := setHeader h.headers (strBytes "Host") [value],
          buf := C1 ++ (listReplace1 (headerLine (strBytes "Host") hostVal)
            hostVal value ++
            10 :: (headerLine (strBytes "Origin") originVal ++
              10 :: (13 :: 10 :: body))) }
        ((value.length : Int) - (hostVal.length : Int)) :=
    replaceHeader_undrained_eq h (strBytes "Host") hostVal value C1 _
      hused hhost hbuf hC1 hC1nl hfirstHost (by decide) hhv10
  rw [listReplace1_headerLine _ _ _ hfirstOldHost] at e1
  set B2 := C1 ++ (headerLine (strBytes "Host") value ++
    10 :: (headerLine (strBytes "Origin") originVal ++ 10 :: (13 :: 10 :: body)))
    with hB2
  set h1s : HttpProcessor := { h with
    headers := setHeader h.headers (strBytes "Host") [value], buf := B2 }
    with hh1s
  set h2 := adjustBufferPositions h1s
    ((value.length : Int) - (hostVal.length : Int)) with hh2
  have h2headers : h2.headers = setHeader h.headers (strBytes "Host") [value] := by
    rw [hh2, adjustBufferPositions_headers, hh1s]
  have h2used : h2.bufferUsed = false := by
    rw [hh2, adjustBufferPositions_bufferUsed, hh1s]
    exact hused
  have h2buf : h2.buf = B2 := by
    rw [hh2, adjustBufferPositions_buf, hh1s]
  have h2origin : lookupHeader h2.headers (strBytes "Origin") = some [originVal] := by
    rw [h2headers, lookupHeader_setHeader_other _ _ _ _ (by decide)]
    exact horigin
  have h2host : lookupHeader h2.headers (strBytes "Host") = some [value] := by
    rw [h2headers]
    exact lookupHeader_setHeader_self _ _ _ _ hhost
  have hsingle := setHostHeader_eq_single dom h value originVal
    (by rw [e1]; exact h2origin)
  rw [e1, if_pos hcontains] at hsingle
  set C2 := C1 ++ (headerLine (strBytes "Host") value ++ [10]) with hC2def
  have hbuf2 : h2.buf = C2 ++ (headerLine (strBytes "Origin") originVal ++
      10 :: (13 :: 10 :: body)) := by
    rw [h2buf, hB2, hC2def]
    simp
  have hfirst2 : listIndexOf h2.buf (strBytes "Origin") = some C2.length := by
    rw [h2buf]
    exact hfirstOrigin2
  have hC2pos : 0 < C2.length := by rw [hC2def]; simp
  have hC2nl : C2.get? (C2.length - 1) = some nlByte := by
    rw [show C2 = (C1 ++ headerLine (strBytes "Host") value) ++ [nlByte] from by
      rw [hC2def]; simp [nlByte]]
    exact appendEnd_get _
  have e2gen : ∀ W, replaceHeader h2 (strBytes "Origin") W =
      adjustBufferPositions
        { h2 with
          headers := setHeader h2.headers (strBytes "Origin") [W],
          buf := C2 ++ (listReplace1 (headerLine (strBytes "Origin") originVal)
            originVal W ++ 10 :: (13 :: 10 :: body)) }
        ((W.length : Int) - (originVal.length : Int)) := fun W =>
    replaceHeader_undrained_eq h2 (strBytes "Origin") originVal W C2
      (13 :: 10 :: body) h2used h2origin hbuf2 hC2pos hC2nl hfirst2
      (by decide) hov10
  refine ⟨?_, ?_, ?_⟩
  · rw [hsingle, e2gen _, adjustBufferPositions_headers]
    show lookupHeader (setHeader h2.headers (strBytes "Origin")
      [listReplace1 originVal (domainPrefix dom) value]) (strBytes "Host")
      = some [value]
    rw [lookupHeader_setHeader_other _ _ _ _ (by decide)]
    exact h2host
  · intro O1 O2 hdecomp hsensIdx
    have hrepl : listReplace1 originVal (domainPrefix dom) value
        = O1 ++ (value ++ O2) := by
      rw [hdecomp] at hsensIdx ⊢
      exact listReplace1_middle O1 (domainPrefix dom) value O2 hsensIdx
    have e2 := e2gen (O1 ++ (value ++ O2))
    rw [listReplace1_headerLine _ _ _ hfirstOldOrigin] at e2
    rw [hsingle, hrepl, e2]
    constructor
    · rw [adjustBufferPositions_headers]
      show lookupHeader (setHeader h2.headers (strBytes "Origin")
        [O1 ++ (value ++ O2)]) (strBytes "Origin") = some [O1 ++ (value ++ O2)]
      exact lookupHeader_setHeader_self _ _ _ _ h2origin
    · rw [adjustBufferPositions_buf]
      show C2 ++ (headerLine (strBytes "Origin") (O1 ++ (value ++ O2)) ++
        10 :: (13 :: 10 :: body)) = _
      rw [hC2def]
      simp
  · intro hnone
    have hrepl : listReplace1 originVal (domainPrefix dom) value = originVal :=
      listReplace1_none _ _ _ hnone
    have e2 := e2gen originVal
    rw [listReplace1_headerLine _ _ _ hfirstOldOrigin] at e2
    rw [hsingle, hrepl, e2]
    constructor
    · rw [adjustBufferPositions_headers]
      show lookupHeader (setHeader h2.headers (strBytes "Origin")
        [originVal]) (strBytes "Origin") = some [originVal]
      exact lookupHeader_setHeader_self _ _ _ _ h2origin
    · rw [adjustBufferPositions_buf]
      show C2 ++ (headerLine (strBytes "Origin") originVal ++
        10 :: (13 :: 10 :: body)) = _
      rw [hC2def]
      simp

/-- **C7, counterexample.**  On the concrete undrained state whose
`Origin` value `http://DOMAIN.io` contains the configured domain
`domain.io` case-insensitively (the claim's premise), `SetHostHeader`
with `a.b.com` overwrites `Host` but leaves the `Origin` value — in the
map and in the buffer — completely unchanged, instead of rewriting its
domain portion to `a.b.com` as claimed: the replacement inside
`SetHostHeader` is case-sensitive. -/
theorem setHostHeader_origin_counterexample :
    listContains (goToLower (strBytes "http://DOMAIN.io"))
      (goToLower (domainPrefix (strBytes "domain.io"))) = true ∧
    lookupHeader (SetHostHeader (strBytes "domain.io") procC7
      (strBytes "a.b.com")).headers (strBytes "Host")
      = some [strBytes "a.b.com"] ∧
    lookupHeader (SetHostHeader (strBytes "domain.io") procC7
      (strBytes "a.b.com")).headers (strBytes "Origin")
      = some [strBytes "http://DOMAIN.io"] ∧
    ¬ lookupHeader (SetHostHeader (strBytes "domain.io") procC7
      (strBytes "a.b.com")).headers (strBytes "Origin")
      = some [strBytes "http://a.b.com"] ∧
    (SetHostHeader (strBytes "domain.io") procC7 (strBytes "a.b.com")).buf
      = strBytes
        "GET / HTTP/1.1\r\nHost: a.b.com\r\nOrigin: http://DOMAIN.io\r\n\r\n" := by
  refine ⟨by decide, by decide, by decide, by decide, by decide⟩

/-- **C7 (amended), witness.**  On the concrete state whose `Origin`
value is `http://domain.io` (case-sensitive occurrence), the amended
theorem yields the rewritten `Origin: http://a.b.com` and
`Host: a.b.com`. -/
theorem setHostHeader_spec_witness :
    lookupHeader (SetHostHeader (strBytes "domain.io") procC7W
      (strBytes "a.b.com")).headers (strBytes "Origin")
      = some [strBytes "http://a.b.com"] ∧
    lookupHeader (SetHostHeader (strBytes "domain.io") procC7W
      (strBytes "a.b.com")).headers (strBytes "Host")
      = some [strBytes "a.b.com"] := by
  have H := setHostHeader_spec (strBytes "domain.io") (strBytes "a.b.com")
    (strBytes "domain.io") (strBytes "http://domain.io")
    (strBytes "GET / HTTP/1.1\r\n") [] procC7W
    (by decide) (by decide) (by decide) (by decide) (by decide) (by decide)
    (by decide) (by decide) (by decide) (by decide) (by decide) (by decide)
    (by decide)
  obtain ⟨h1, h2, -⟩ := H
  have h3 := h2 (strBytes "http://") [] (by decide) (by decide)
  exact ⟨h3.1.trans (by decide), h1⟩

/-! ### Registry theorems (C5, C6) -/

lemma tableLookup_insert_self (t : TunnelTable) (k : List Nat) (v : TunnelEntry) :
    tableLookup (tableInsert t k v) k = some v := by
  induction t with
  | nil => simp [tableInsert, tableLookup, List.find?]
  | cons e rest ih =>
    by_cases he : e.1 = k
    · simp [tableInsert, tableLookup, List.find?, he]
    · simpa [tableInsert, tableLookup, List.find?, he] using ih


lemma genLoop_spec (table : TunnelTable) (addr : List Nat) :
    ∀ rands g, genLoop table addr rands = some g →
      tableLookup table (addr ++ g) = none ∧
      ∃ bs ∈ rands, g = generateRandomTunnelName bs := by
  intro rands
  induction rands with
  | nil => intro g h; simp [genLoop] at h
  | cons bs rest ih =>
    intro g h
    unfold genLoop at h
    by_cases ht : (tableLookup table (addr ++ generateRandomTunnelName bs)).isSome
    · simp only [ht, if_true] at h
      obtain ⟨h1, bs', hmem, hg⟩ := ih g h
      exact ⟨h1, bs', List.mem_cons_of_mem _ hmem, hg⟩
    · simp only [ht, if_false] at h
      obtain rfl : generateRandomTunnelName bs = g := Option.some.inj h
      refine ⟨?_, bs, List.mem_cons_self _ _, rfl⟩
      cases hx : tableLookup table (addr ++ generateRandomTunnelName bs) with
      | none => rfl
      | some e => rw [hx] at ht; simp at ht

lemma charMapByte_alnum (i : Nat) (hi : i ≤ 35) :
    (isDigitByte (charMapByte i) || (97 ≤ charMapByte i && charMapByte i ≤ 122))
      = true := by
  unfold charMapByte isDigitByte
  split <;>
    simp only [Bool.or_eq_true, Bool.and_eq_true, decide_eq_true_eq] <;>
    omega

lemma generateRandomTunnelName_alnum (bs : List Nat) :
    (generateRandomTunnelName bs).all
      (fun b => isDigitByte b || (97 ≤ b && b ≤ 122)) = true := by
  unfold generateRandomTunnelName
  rw [List.all_map]
  refine List.all_eq_true.mpr fun b _ => ?_
  exact charMapByte_alnum (b % 36) (by omega)

/-- **C5.**  (i) A valid requested name that is free or owned by the
same client is granted exactly, with the registry updated under
`addr ++ name`.  (ii) An invalid name, or one owned by another client,
leads to the generation loop: the granted name is the first free
generated candidate, it is built from random bytes mod 36 mapped to
`[0-9a-z]`, and it is 4 characters long when the draws are 4 bytes.
(iii) Two successive acquisitions of the same name by the same client
both yield that name.  (iv) A subsequent acquisition of that name by a
different client yields a (different) generated name. -/
theorem acquireHttpName_spec (table : TunnelTable)
    (addr name cid cid' : List Nat) (rands : List (List Nat)) :
    (tunnelNameValid name = true →
      (tableLookup table (addr ++ name) = none ∨
        tableLookup table (addr ++ name) = some ⟨cid⟩) →
      acquireHttpName table addr name cid rands =
        some (name, tableInsert table (addr ++ name) ⟨cid⟩)) ∧
    ((tunnelNameValid name = false ∨
        (∃ e, tableLookup table (addr ++ name) = some e ∧ ¬ e.clientID = cid)) →
      ∀ g, genLoop table addr rands = some g →
        acquireHttpName table addr name cid rands =
          some (g, tableInsert table (addr ++ g) ⟨cid⟩) ∧
        tableLookup table (addr ++ g) = none ∧
        (∃ bs ∈ rands, g = generateRandomTunnelName bs) ∧
        g.all (fun b => isDigitByte b || (97 ≤ b && b ≤ 122)) = true ∧
        ((∀ bs ∈ rands, bs.length = 4) → g.length = 4)) ∧
    (tunnelNameValid name = true →
      tableLookup table (addr ++ name) = none →
      ∀ t1, acquireHttpName table addr name cid rands = some (name, t1) →
        acquireHttpName t1 addr name cid rands =
          some (name, tableInsert t1 (addr ++ name) ⟨cid⟩)) ∧
    (tunnelNameValid name = true →
      tableLookup table (addr ++ name) = none →
      ¬ cid' = cid →
      ∀ t1 g, acquireHttpName table addr name cid rands = some (name, t1) →
        genLoop t1 addr rands = some g →
        acquireHttpName t1 addr name cid' rands =
          some (g, tableInsert t1 (addr ++ g) ⟨cid'⟩) ∧ ¬ g = name) := by
  have grantSame : tunnelNameValid name = true →
      ∀ t : TunnelTable, ∀ c : List Nat,
      (tableLookup t (addr ++ name) = none ∨
        tableLookup t (addr ++ name) = some ⟨c⟩) →
      acquireHttpName t addr name c rands =
        some (name, tableInsert t (addr ++ name) ⟨c⟩) := by
    intro hv t c hfree
    unfold acquireHttpName
    rcases hfree with hfree | hfree <;> simp [hv, hfree]
  have genCase : ∀ t : TunnelTable, ∀ c : List Nat,
      (tunnelNameValid name = false ∨
        (∃ e, tableLookup t (addr ++ name) = some e ∧ ¬ e.clientID = c)) →
      ∀ g, genLoop t addr rands = some g →
        acquireHttpName t addr name c rands =
          some (g, tableInsert t (addr ++ g) ⟨c⟩) ∧
        tableLookup t (addr ++ g) = none ∧
        (∃ bs ∈ rands, g = generateRandomTunnelName bs) ∧
        g.all (fun b => isDigitByte b || (97 ≤ b && b ≤ 122)) = true ∧
        ((∀ bs ∈ rands, bs.length = 4) → g.length = 4) := by
    intro t c hbad g hg
    obtain ⟨hfreeg, bs, hmem, hgbs⟩ := genLoop_spec t addr rands g hg
    have hacq : acquireHttpName t addr name c rands =
        some (g, tableInsert t (addr ++ g) ⟨c⟩) := by
      unfold acquireHttpName
      rcases hbad with hbad | ⟨e, he, hne⟩
      · simp [hbad, hg]
      · simp [he, hne, hg]
    refine ⟨hacq, hfreeg, ⟨bs, hmem, hgbs⟩, ?_, ?_⟩
    · rw [hgbs]; exact generateRandomTunnelName_alnum bs
    · intro hlen
      rw [hgbs]
      simpa [generateRandomTunnelName] using hlen bs hmem
  refine ⟨fun hv => grantSame hv table cid, genCase table cid, ?_, ?_⟩
  · intro hv hfree t1 hfirst
    have h1 := grantSame hv table cid (Or.inl hfree)
    rw [hfirst] at h1
    obtain rfl : t1 = tableInsert table (addr ++ name) ⟨cid⟩ := by
      have := Option.some.inj h1.symm
      exact (congrArg Prod.snd this).symm
    exact grantSame hv _ cid (Or.inr (tableLookup_insert_self _ _ _))
  · intro hv hfree hne t1 g hfirst hg
    have h1 := grantSame hv table cid (Or.inl hfree)
    rw [hfirst] at h1
    obtain rfl : t1 = tableInsert table (addr ++ name) ⟨cid⟩ := by
      have := Option.some.inj h1.symm
      exact (congrArg Prod.snd this).symm
    have htaken : ∃ e, tableLookup (tableInsert table (addr ++ name) ⟨cid⟩)
        (addr ++ name) = some e ∧ ¬ e.clientID = cid' := by
      exact ⟨⟨cid⟩, tableLookup_insert_self _ _ _, fun hcc => hne (hcc.symm)⟩
    obtain ⟨hacq, hfreeg, -⟩ := genCase _ cid' (Or.inr htaken) g hg
    refine ⟨hacq, fun hgname => ?_⟩
    rw [hgname, tableLookup_insert_self] at hfreeg
    exact Option.noConfusion hfreeg

/-- **C5, witness.**  In the empty registry, the valid name `"abc"`
requested by client `"c1"` is granted as such. -/
theorem acquireHttpName_spec_witness :
    acquireHttpName [] (strBytes "localhost:80") (strBytes "abc")
        (strBytes "c1") [] =
      some (strBytes "abc",
        [(strBytes "localhost:80" ++ strBytes "abc",
          ⟨strBytes "c1"⟩)]) := by
  exact (acquireHttpName_spec [] (strBytes "localhost:80") (strBytes "abc")
    (strBytes "c1") (strBytes "c1") []).1 (by decide) (Or.inl (by decide))

lemma scanPorts_all_taken_last (t : Nat → Bool) :
    ∀ c p, (∀ q, p ≤ q → q < p + c → t q = true) → t (p + c) = false →
      scanPorts t (c + 1) p = some (p + c) := by
  intro c
  induction c with
  | zero =>
    intro p _ hlast
    rw [Nat.add_zero] at hlast
    simp [scanPorts, hlast]
  | succ c ih =>
    intro p htaken hlast
    have hp : t p = true := htaken p le_rfl (by omega)
    have : scanPorts t (c + 1 + 1) p = scanPorts t (c + 1) (p + 1) := by
      simp [scanPorts, hp]
    rw [this]
    have := ih (p + 1) (fun q h1 h2 => htaken q (by omega) (by omega))
      (by rw [show p + 1 + c = p + (c + 1) by omega]; exact hlast)
    rw [this]
    congr 1
    omega

/-- **C6 (code bug).**  In a forwards table in which every port
`1000..=65535` for the bind address is taken and `65536` is free, the
scan of `forwardHandler` (`for p := 1000; p <= 1<<16; p++`) selects
port `65536`, which lies outside the claimed range `1000..=65535` (and
is not a valid TCP port). -/
theorem allocateTcpPort_code_bug :
    allocateTcpPort (fun p => decide (p ≤ 65535)) = some 65536 ∧
      ¬ (65536 ≤ 65535) := by
  refine ⟨?_, by omega⟩
  have h := scanPorts_all_taken_last (fun p => decide (p ≤ 65535)) 64536 1000
    (fun q h1 h2 => by simp; omega) (by simp)
  unfold allocateTcpPort
  rw [show (64537 : Nat) = 64536 + 1 from rfl, h]

/-- **C9 (amended), witness.**  On the start-line `"HTTP/1.1 200 OK"`
(whose first word is not a token) the classification yields a response
with status code 200. -/
theorem classifyStartLine_spec_witness :
    (classifyStartLine (fun _ => some ()) (strBytes "HTTP/1.1 200 OK")).request
        = false ∧
    (classifyStartLine (fun _ => some ())
        (strBytes "HTTP/1.1 200 OK")).responseStatusCode = 200 := by
  have h := (classifyStartLine_spec (fun _ => some ())
    (strBytes "HTTP/1.1 200 OK")).1 (by decide)
  exact ⟨h.1, (h.2.1 (strBytes "HTTP/1.1") (strBytes "200 OK") 200 (by decide)).1⟩

lemma readLoop_cont (f : Nat) (hf : 1 ≤ f) (st st' : ChunkedReader)
    (capLeft bodyCnt : Nat) (acc o : List Nat) (c' b' : Nat)
    (herr : st.err = none)
    (hstep : chunkStep st capLeft bodyCnt = .cont o st' c' b') :
    readLoop f st capLeft acc bodyCnt = readLoop (f - 1) st' c' (acc ++ o) b' := by
  obtain ⟨f', rfl⟩ : ∃ f', f = f' + 1 := ⟨f - 1, by omega⟩
  rw [readLoop, herr, hstep]
  simp

lemma readLoop_err (f : Nat) (hf : 1 ≤ f) (st : ChunkedReader)
    (capLeft bodyCnt : Nat) (acc : List Nat)
    (herr : st.err.isSome = true) :
    readLoop f st capLeft acc bodyCnt = (acc, st) := by
  obtain ⟨f', rfl⟩ : ∃ f', f = f' + 1 := ⟨f - 1, by omega⟩
  rw [readLoop, herr]
  simp

lemma parseHexUintGo_no_nl (v : List Nat) : ∀ (i n m : Nat),
    parseHexUintGo v i n = Except.ok m → ∀ b ∈ v, ¬ b = nlByte := by
  induction v with
  | nil => simp
  | cons b t IH =>
    intro i n m h x hx hx10
    rcases List.mem_cons.1 hx with rfl | hxt
    · subst hx10
      simp [parseHexUintGo, hexDigitVal, nlByte] at h
    · cases hd : hexDigitVal b with
      | none =>
        simp only [parseHexUintGo, hd] at h
        exact absurd h (by simp)
      | some d =>
        simp only [parseHexUintGo, hd] at h
        by_cases hi : i = 16
        · rw [if_pos hi] at h; exact absurd h (by simp)
        · rw [if_neg hi] at h; exact IH _ _ _ h x hxt hx10

lemma nl_mem_encodeChunks (cs : List Chunk) : nlByte ∈ encodeChunks cs := by
  cases cs with
  | nil => simp [encodeChunks, nlByte]
  | cons c cs => simp [encodeChunks, nlByte]

lemma encodeChunks_ne_nil (cs : List Chunk) : encodeChunks cs ≠ [] := by
  cases cs with
  | nil => simp [encodeChunks]
  | cons c cs => simp [encodeChunks]

lemma breakAtNewline_append (a t : List Nat)
    (ha : ∀ b ∈ a, ¬ b = nlByte) :
    breakAtNewline (a ++ 10 :: t) = some (a ++ [10], t) := by
  induction a with
  | nil => simp [breakAtNewline, nlByte]
  | cons b a IH =>
    have hb : ¬ b = nlByte := ha b (by simp)
    rw [List.cons_append, breakAtNewline, if_neg (by simpa [nlByte] using hb),
      IH (fun x hx => ha x (by simp [hx]))]
    simp

lemma chunkLine_ne_terminal (c : Chunk) (hc : chunkOk c) :
    ¬ ((c.hex ++ c.ext) ++ [13, 10]) = [48, 13, 10] := by
  intro h
  obtain ⟨hne, hparse, hpos, -, -, -⟩ := hc
  have hlen : c.hex.length + (c.ext.length + 2) = 3 := by
    simpa using congrArg List.length h
  have hhex1 : c.hex.length = 1 := by
    have := List.length_pos.2 hne
    omega
  have hext0 : c.ext = [] := by
    have : c.ext.length = 0 := by omega
    exact List.length_eq_zero.1 this
  obtain ⟨b, hb⟩ := List.length_eq_one.1 hhex1
  rw [hb, hext0] at h
  have hb48 : b = 48 := by simpa using h
  rw [hb, hb48] at hparse
  have : (0 : Nat) = c.body.length := by
    have : parseHexUint [48] = Except.ok 0 := rfl
    rw [this] at hparse
    simpa using hparse
  omega

lemma beginChunk_encode (cs : List Chunk) (hok : ∀ c ∈ cs, chunkOk c)
    (extra b₀ l₀ : List Nat) (u₀ : Nat) :
    beginChunk { input := encodeChunks cs ++ extra, unreadBytesInChunk := 0,
                 err := none, buf := b₀, checkEnd := false, line := l₀,
                 unwrittenBytesInBuffer := u₀ }
      = afterBeginChunkState cs extra b₀ := by
  cases cs with
  | nil =>
    simp [beginChunk, readChunkLine, breakAtNewline, encodeChunks,
      afterBeginChunkState, trimTrailingWhitespace, isASCIISpace,
      removeChunkExtension, parseHexUint, parseHexUintGo, hexDigitVal, nlByte]
  | cons c cs =>
    have hc := hok c (List.mem_cons_self c cs)
    obtain ⟨hne, hparse, hpos, hextnl, htrim, hlinelen⟩ := hc
    have hhexnl : ∀ b ∈ c.hex, ¬ b = nlByte :=
      parseHexUintGo_no_nl c.hex 0 0 c.body.length hparse
    have harr : encodeChunks (c :: cs) ++ extra
        = ((c.hex ++ c.ext) ++ [13]) ++
            (10 :: (c.body ++ (13 :: 10 :: (encodeChunks cs ++ extra)))) := by
      simp [encodeChunks]
    have hanl : ∀ b ∈ (c.hex ++ c.ext) ++ [13], ¬ b = nlByte := by
      intro b hb
      rcases List.mem_append.1 hb with hb | hb
      · rcases List.mem_append.1 hb with hb | hb
        · exact hhexnl b hb
        · exact hextnl b hb
      · simp at hb; subst hb; simp [nlByte]
    have hbreak : breakAtNewline (encodeChunks (c :: cs) ++ extra)
        = some ((c.hex ++ c.ext) ++ [13, 10],
            c.body ++ (13 :: 10 :: (encodeChunks cs ++ extra))) := by
      rw [harr, breakAtNewline_append _ _ hanl]
      simp
    have h4096 : ¬ 4096 ≤ ((c.hex ++ c.ext) ++ [13, 10]).length := by
      simp only [List.length_append]
      simp
      omega
    have hparse2 : parseHexUint (removeChunkExtension
        (trimTrailingWhitespace ((c.hex ++ c.ext) ++ [13, 10])))
        = Except.ok c.body.length := by
      rw [htrim]; exact hparse
    simp only [beginChunk, readChunkLine, hbreak, h4096, if_false, hparse2,
      afterBeginChunkState]
    simp [ChunkedReader.mk.injEq]
    omega

lemma chunkStep_init (cs : List Chunk) (hok : ∀ c ∈ cs, chunkOk c)
    (extra : List Nat) (capLeft : Nat) :
    chunkStep (initChunkedReader (encodeChunks cs ++ extra)) capLeft 0
      = .cont [] (afterBeginChunkState cs extra [0, 0]) capLeft 0 := by
  have hbc := beginChunk_encode cs hok extra [0, 0] [] 0
  simp [chunkStep, stepCheckEnd, stepFlushLine, stepBody, initChunkedReader,
    StepRes.addOut, hbc]

lemma chunkStep_terminalLine (extra b₀ : List Nat) (capLeft bodyCnt : Nat)
    (hcap : 3 ≤ capLeft) :
    chunkStep (afterBeginChunkState [] extra b₀) capLeft bodyCnt
      = .cont [48, 13, 10]
          { input := 13 :: 10 :: extra, unreadBytesInChunk := 0, err := none,
            buf := b₀, checkEnd := true, line := [48, 13, 10],
            unwrittenBytesInBuffer := 0 }
          (capLeft - 3) bodyCnt := by
  have hc0 : ¬ capLeft = 0 := by omega
  have hmin : min capLeft 3 = 3 := by omega
  simp [chunkStep, stepCheckEnd, stepFlushLine, flushLine, stepBody,
    afterBeginChunkState, StepRes.addOut, hc0, hmin]

lemma chunkStep_finalFooter (extra b₀ : List Nat) (capLeft bodyCnt : Nat)
    (hcap : 2 ≤ capLeft) :
    chunkStep { input := 13 :: 10 :: extra, unreadBytesInChunk := 0,
                err := none, buf := b₀, checkEnd := true,
                line := [48, 13, 10], unwrittenBytesInBuffer := 0 }
        capLeft bodyCnt
      = .cont [13, 10] (finalChunkState extra) (capLeft - 2) bodyCnt := by
  have hc0 : ¬ capLeft = 0 := by omega
  have hmin : min capLeft 2 = 2 := by omega
  have hlen2 : ¬ (extra.length + 1 + 1 < 2) := by omega
  simp [chunkStep, stepCheckEnd, readFooter2, stepAfterFooter, flushFooter, hlen2,
    stepFlushLine, stepBody, finalChunkState, StepRes.addOut, hc0, hmin]

lemma chunkStep_afterBegin (c : Chunk) (cs : List Chunk) (extra b₀ : List Nat)
    (capLeft bodyCnt : Nat) (hbody : c.body ≠ [])
    (hcap : c.hex.length + c.ext.length + 2 + c.body.length ≤ capLeft) :
    chunkStep (afterBeginChunkState (c :: cs) extra b₀) capLeft bodyCnt
      = .cont (((c.hex ++ c.ext) ++ [13, 10]) ++ c.body)
          { input := 13 :: 10 :: (encodeChunks cs ++ extra),
            unreadBytesInChunk := 0, err := none, buf := b₀,
            checkEnd := true, line := (c.hex ++ c.ext) ++ [13, 10],
            unwrittenBytesInBuffer := 0 }
          (capLeft - (c.hex.length + c.ext.length + 2) - c.body.length)
          (bodyCnt + c.body.length) := by
  have hL0 : ¬ (c.hex.length + c.ext.length + 2 = 0) := by omega
  have hc0 : ¬ capLeft = 0 := by omega
  have hminL : min capLeft (c.hex.length + c.ext.length + 2)
      = c.hex.length + c.ext.length + 2 := by omega
  have hsub : c.hex.length + (c.ext.length + 2)
      - (c.hex.length + c.ext.length + 2) = 0 := by omega
  have htake : (c.hex ++ (c.ext ++ [13, 10])).take
      (c.hex.length + c.ext.length + 2) = c.hex ++ (c.ext ++ [13, 10]) := by
    have h : (c.hex ++ (c.ext ++ [13, 10])).length
        = c.hex.length + c.ext.length + 2 := by
      simp
      omega
    rw [← h, List.take_length]
  have hbody0 : ¬ (c.body.length = 0) :=
    fun h => hbody (List.length_eq_zero.1 h)
  have hcL : ¬ (capLeft - (c.hex.length + c.ext.length + 2) = 0) := by omega
  have hmin2 : min (capLeft - (c.hex.length + c.ext.length + 2))
      c.body.length = c.body.length := by omega
  have hmin3 : min c.body.length
      (c.body ++ 13 :: 10 :: (encodeChunks cs ++ extra)).length
      = c.body.length := by
    simp only [List.length_append, List.length_cons]
    omega
  simp [chunkStep, stepCheckEnd, stepFlushLine, flushLine, stepBody,
    afterBeginChunkState, StepRes.addOut, chunkHeaderAvailable,
    hL0, hc0, hminL, hsub, htake, hbody0, hcL, hmin2, hmin3,
    List.take_left, List.drop_left]

lemma chunkStep_footer (cs : List Chunk) (hok : ∀ c ∈ cs, chunkOk c)
    (extra b₀ l : List Nat) (capLeft bodyCnt : Nat)
    (hl : ¬ l = [48, 13, 10]) (hcap : 2 ≤ capLeft) :
    chunkStep { input := 13 :: 10 :: (encodeChunks cs ++ extra),
                unreadBytesInChunk := 0, err := none, buf := b₀,
                checkEnd := true, line := l, unwrittenBytesInBuffer := 0 }
        capLeft bodyCnt
      = .cont [13, 10] (afterBeginChunkState cs extra [13, 10])
          (capLeft - 2) bodyCnt := by
  have hc0 : ¬ capLeft = 0 := by omega
  have hmin : min capLeft 2 = 2 := by omega
  have hlen2 : ¬ ((encodeChunks cs).length + extra.length + 1 + 1 < 2) := by
    omega
  have hbc := beginChunk_encode cs hok extra [13, 10] l 0
  have hnl : nlByte ∈ encodeChunks cs := nl_mem_encodeChunks cs
  have hpos : 0 < (encodeChunks cs).length + extra.length := by
    have := List.length_pos.2 (encodeChunks_ne_nil cs)
    omega
  simp [chunkStep, stepCheckEnd, readFooter2, stepAfterFooter, flushFooter,
    stepFlushLine, stepBody, chunkHeaderAvailable, StepRes.addOut,
    hc0, hmin, hlen2, hl, hbc, hnl, hpos]

lemma readLoop_afterBegin : ∀ (cs : List Chunk), (∀ c ∈ cs, chunkOk c) →
    ∀ (extra b₀ acc : List Nat) (bodyCnt capLeft f : Nat),
      (encodeChunks cs).length ≤ capLeft →
      (encodeChunks cs).length ≤ f →
      readLoop f (afterBeginChunkState cs extra b₀) capLeft acc bodyCnt
        = (acc ++ encodeChunks cs, finalChunkState extra) := by
  intro cs
  induction cs with
  | nil =>
    intro hok extra b₀ acc bodyCnt capLeft f hcap hf
    have hlen : (encodeChunks ([] : List Chunk)).length = 5 := rfl
    rw [hlen] at hcap hf
    rw [readLoop_cont f (by omega) _ _ _ _ _ _ _ _ rfl
        (chunkStep_terminalLine extra b₀ capLeft bodyCnt (by omega))]
    rw [readLoop_cont (f - 1) (by omega) _ _ _ _ _ _ _ _ rfl
        (chunkStep_finalFooter extra b₀ (capLeft - 3) bodyCnt (by omega))]
    rw [readLoop_err (f - 1 - 1) (by omega) (finalChunkState extra) _ _ _ rfl]
    simp [encodeChunks]
  | cons c cs IH =>
    intro hok extra b₀ acc bodyCnt capLeft f hcap hf
    have hc := hok c (List.mem_cons_self c cs)
    have hok' : ∀ x ∈ cs, chunkOk x :=
      fun x hx => hok x (List.mem_cons_of_mem _ hx)
    obtain ⟨hne, hparse, hpos, hextnl, htrim, hlinelen⟩ := hc
    have hbody : c.body ≠ [] := by
      intro h; rw [h] at hpos; simp at hpos
    have hlen : (encodeChunks (c :: cs)).length
        = c.hex.length + c.ext.length + 2 + c.body.length + 2
            + (encodeChunks cs).length := by
      simp only [encodeChunks, List.length_append, List.length_cons,
        List.length_nil]
      omega
    have hhexpos : 0 < c.hex.length := List.length_pos.2 hne
    have hbodypos : 0 < c.body.length := hpos
    rw [readLoop_cont f (by omega) _ _ _ _ _ _ _ _ rfl
        (chunkStep_afterBegin c cs extra b₀ capLeft bodyCnt hbody (by omega))]
    rw [readLoop_cont (f - 1) (by omega) _ _ _ _ _ _ _ _ rfl
        (chunkStep_footer cs hok' extra b₀ ((c.hex ++ c.ext) ++ [13, 10])
          (capLeft - (c.hex.length + c.ext.length + 2) - c.body.length)
          (bodyCnt + c.body.length)
          (chunkLine_ne_terminal c ⟨hne, hparse, hpos, hextnl, htrim, hlinelen⟩)
          (by omega))]
    rw [IH hok' extra [13, 10] _ _ _ (f - 1 - 1) (by omega) (by omega)]
    simp [encodeChunks]

/-- **C1.**  For every byte stream `P` that is a valid HTTP/1.1 chunked
encoding ending with the terminating zero-length chunk (`ValidChunked`),
a `Read` call with capacity at least `P.length` on the reader returned
by `NewChunkedReader` over `P` (followed by any further bytes `extra`)
yields exactly the bytes of `P` — chunk-size lines, CRLF separators and
the trailing zero-chunk terminator included, nothing decoded or removed
— and leaves the reader with `io.EOF` recorded and `extra` unconsumed;
every later `Read` yields no further bytes. -/
theorem chunkedReader_passthrough (P extra : List Nat) (hP : ValidChunked P)
    (cap : Nat) (hcap : P.length ≤ cap) :
    chunkedRead (initChunkedReader (P ++ extra)) cap
        = (P, finalChunkState extra) ∧
      ∀ cap', chunkedRead (finalChunkState extra) cap'
        = ([], finalChunkState extra) := by
  obtain ⟨cs, hok, rfl⟩ := hP
  constructor
  · have hlapp : (encodeChunks cs ++ extra).length
        = (encodeChunks cs).length + extra.length := List.length_append _ _
    have hin : (initChunkedReader (encodeChunks cs ++ extra)).input.length
        = (encodeChunks cs ++ extra).length := rfl
    rw [chunkedRead, hin]
    rw [readLoop_cont _ (by omega) _ _ _ _ _ _ _ _ rfl
        (chunkStep_init cs hok extra cap)]
    rw [readLoop_afterBegin cs hok extra [0, 0] _ _ _
        ((encodeChunks cs ++ extra).length + cap + 8 - 1) hcap (by omega)]
    simp
  · intro cap'
    rw [chunkedRead]
    exact readLoop_err _ (by omega) (finalChunkState extra) _ _ _ rfl

theorem chunkedReader_passthrough_witness :
    chunkedRead (initChunkedReader
        (strBytes "5\r\nHello\r\n0\r\n\r\n" ++ strBytes "X")) 15
      = (strBytes "5\r\nHello\r\n0\r\n\r\n",
          finalChunkState (strBytes "X")) ∧
    ∀ cap', chunkedRead (finalChunkState (strBytes "X")) cap'
      = ([], finalChunkState (strBytes "X")) :=
  chunkedReader_passthrough (strBytes "5\r\nHello\r\n0\r\n\r\n")
    (strBytes "X")
    ⟨[⟨[53], [], strBytes "Hello"⟩],
      by
        intro c hc
        rw [List.mem_singleton] at hc
        subst hc
        exact ⟨by decide, rfl, by decide, by decide, rfl, by decide⟩,
      by decide⟩
    15 (by decide)

end Tunnel
